import Mathlib

/-!
Verification development for the bioscreen module (`src/bioscreen.py`).

The Python source is shallowly embedded: pandas tables become association
lists of columns, Python dicts become insertion-ordered association lists,
floats become rationals, and code that can raise becomes `Except PyErr`.
Definitions follow the source line by line; the only spec-modelled part is
the external file serialization used by `write_summary`/`load_summary`.
-/

namespace Bioscreen

/-- Python exception outcomes that the embedded code can produce.
`runtimeError` carries the message of an explicit `raise RuntimeError(...)`;
`indexError`, `nameError`, `keyError`, `valueError` model the corresponding
implicit Python exceptions (out-of-range indexing, unbound local variable,
missing dict key, failed `int(...)`). -/
inductive PyErr where
  | indexError
  | nameError
  | keyError
  | valueError
  | runtimeError (msg : String)
  deriving DecidableEq

/-- Equality of embedded outcomes is decidable (used to evaluate the model
on concrete inputs). -/
instance [DecidableEq ε] [DecidableEq α] : DecidableEq (Except ε α)
  | Except.error a, Except.error b =>
    if h : a = b then Decidable.isTrue (by rw [h]) else Decidable.isFalse (by simp [h])
  | Except.error _, Except.ok _ => Decidable.isFalse (by simp)
  | Except.ok _, Except.error _ => Decidable.isFalse (by simp)
  | Except.ok a, Except.ok b =>
    if h : a = b then Decidable.isTrue (by rw [h]) else Decidable.isFalse (by simp [h])

/-! ### Character and string helpers (Python `str` operations on `List Char`) -/

/-- The character class `[A-Za-z0-9_\-./]` of `rename_strict`'s regex. -/
def isAllowedChar (c : Char) : Bool :=
  (('A' ≤ c && c ≤ 'Z') || ('a' ≤ c && c ≤ 'z') || ('0' ≤ c && c ≤ '9')
    || c = '_' || c = '-' || c = '.' || c = '/')

/-- Python `str.strip()` : remove leading and trailing whitespace. -/
def pyStripWs (l : List Char) : List Char :=
  (((l.dropWhile Char.isWhitespace).reverse.dropWhile Char.isWhitespace)).reverse

/-- Python `str.rstrip()` : remove trailing whitespace. -/
def pyRstrip (l : List Char) : List Char :=
  ((l.reverse.dropWhile Char.isWhitespace)).reverse

/-- Python `str.strip(x)` for a single character `x`. -/
def pyStripChar (x : Char) (l : List Char) : List Char :=
  (((l.dropWhile (fun c => c = x)).reverse.dropWhile (fun c => c = x))).reverse

/-- `re.sub('[^A-Za-z0-9_\-./]', '_', s)` : replace each disallowed char by `'_'`. -/
def scrub (l : List Char) : List Char :=
  l.map (fun c => if isAllowedChar c then c else '_')

/-- Whether the string contains two consecutive underscores (`'__' in s`). -/
def hasDU : List Char → Bool
  | c :: d :: rest => (c = '_' && d = '_') || hasDU (d :: rest)
  | _ => false

/-- One pass of `re.sub('__', '_', s)`: replace non-overlapping occurrences of
`"__"` by `"_"`, scanning left to right. -/
def sub2chars : List Char → List Char
  | [] => []
  | [c] => [c]
  | c :: d :: rest =>
      if c = '_' ∧ d = '_' then '_' :: sub2chars rest
      else c :: sub2chars (d :: rest)

/-- The `while '__' in s: s = re.sub('__', '_', s)` loop, run with explicit
fuel.  Each pass strictly shortens a string that still contains `"__"`, so
`s.length` passes always reach the fixpoint. -/
def rmUndFuel : ℕ → List Char → List Char
  | 0, s => s
  | fuel + 1, s => if hasDU s then rmUndFuel fuel (sub2chars s) else s

/-- The underscore-collapsing loop of `rename_strict`. -/
def rmUnd (s : List Char) : List Char := rmUndFuel s.length s

/-- `rename_strict` (src/bioscreen.py lines 562-573): strip whitespace,
replace disallowed characters by `'_'`, strip edge underscores, then collapse
runs of underscores. -/
def rename_strict (file_name : String) : String :=
  String.mk (rmUnd (pyStripChar '_' (scrub (pyStripWs file_name.data))))

/-- Python `str.split(sep)` for a single-character separator. -/
def pySplitCh (sep : Char) (l : List Char) : List (List Char) :=
  match l with
  | [] => [[]]
  | c :: rest =>
    match pySplitCh sep rest with
    | [] => [[]]
    | s :: ss => if c = sep then [] :: s :: ss else (c :: s) :: ss

/-- Value of an all-digit numeral (used by the model of Python `int`). -/
def digitsVal (l : List Char) : ℕ :=
  l.foldl (fun a c => a * 10 + (c.toNat - 48)) 0

/-- Python `int(token)` on a whitespace-free token: an optional sign followed
by at least one ASCII digit; anything else raises `ValueError` (`none`). -/
def pyIntChars? (l : List Char) : Option ℤ :=
  match l with
  | [] => none
  | c :: rest =>
    if c = '-' then
      if rest ≠ [] ∧ rest.all Char.isDigit then some (-(digitsVal rest : ℤ)) else none
    else if c = '+' then
      if rest ≠ [] ∧ rest.all Char.isDigit then some ((digitsVal rest : ℤ)) else none
    else if (c :: rest).all Char.isDigit then some ((digitsVal (c :: rest) : ℤ)) else none

/-- Python `str.lower()` (ASCII). -/
def pyLower (s : String) : String := String.mk (s.data.map Char.toLower)

/-- `column.split('__')[0]` : the segment before the first occurrence of
`"__"` (the whole string when there is none). -/
def takeBeforeDU : List Char → List Char
  | [] => []
  | [c] => [c]
  | c :: d :: rest =>
      if c = '_' ∧ d = '_' then []
      else c :: takeBeforeDU (d :: rest)

/-- `column.split('__')[0]` on strings. -/
def firstSegDU (s : String) : String := String.mk (takeBeforeDU s.data)

/-! ### The configuration data model

A configuration entry is a Python dict whose values are either the group
name (under the key `"group"`) or a list of well numbers; insertion order is
observable, so the dict is an ordered association list. -/

/-- A value stored in a configuration dict: the group's name, or a well list. -/
inductive ConfigVal where
  | name (s : String)
  | wells (ws : List ℤ)
  deriving DecidableEq

/-- One group of the configuration: a Python dict as an ordered assoc list. -/
abbrev GroupDict := List (String × ConfigVal)

/-- First entry with the given key, if any. -/
def assocFind? (k : String) : List (String × α) → Option (String × α)
  | [] => none
  | p :: rest => if p.1 = k then some p else assocFind? k rest

/-- Dict lookup (`d[k]` / `k in d`). -/
def dictGet? (d : GroupDict) (k : String) : Option ConfigVal :=
  (assocFind? k d).map Prod.snd

/-- Python dict assignment `d[k] = v`: overwrite in place if the key exists
(keeping its position), otherwise append. -/
def dictInsert (d : GroupDict) (k : String) (v : ConfigVal) : GroupDict :=
  if (assocFind? k d).isSome then
    d.map (fun p => if p.1 = k then (k, v) else p)
  else d ++ [(k, v)]

/-- The `samples` argument of `set_config`, whose runtime shape is sniffed
via `isinstance(samples[0], str)` / `isinstance(samples[0], list)`.
`other` stands for a non-empty list whose first element is neither. -/
inductive SamplesArg where
  | flat (l : List String)
  | nested (l : List (List String))
  | other

/-! ### `Experiment.set_config` (src/bioscreen.py lines 390-505) -/

/-- `num_well_groups`: total number of sample slots. -/
def countSlots (samples_list : List (List String)) : ℕ :=
  (samples_list.map List.length).sum

/-- The auto-assigned well lists when `wells` is `False`:
`starts = np.arange(1, num*r+1, r)`, `stops = np.arange(1+r, num*r+1+r, r)`,
`wells[i] = list(np.arange(starts[i], stops[i]))`, i.e. slot `i` receives
`[i*r+1, ..., i*r+r]`. -/
def autoWells (num r : ℕ) : List (List ℤ) :=
  (List.range num).map (fun i => (List.range' (i * r + 1) r).map Int.ofNat)

/-- Build one group's dict: start from `{'group': groups[g]}` and assign
`group_dict[sample] = wells[w]` for each sample in declared order. -/
def buildGroupDict (gname : String) (sl : List String) (ws : List (List ℤ)) : GroupDict :=
  (sl.zip ws).foldl (fun d p => dictInsert d p.1 (ConfigVal.wells p.2))
    [("group", ConfigVal.name gname)]

/-- The config-building loop of `set_config`: the well-list cursor `w` runs
across groups, so each group consumes the next `len(samples)` well lists. -/
def buildConfig : List String → List (List String) → List (List ℤ) → List GroupDict
  | g :: gs, sl :: sls, ws =>
      buildGroupDict g sl (ws.take sl.length) :: buildConfig gs sls (ws.drop sl.length)
  | _, _, _ => []

/-- The part of `set_config` after the samples-shape sniffing.  With
`wells is False` and `replicates = 0`, `np.arange` with step 0 raises; this
is modelled as `valueError`. -/
def set_config_go (groups : List String) (samples_list : List (List String))
    (replicates : ℕ) (wells : Option (List (List ℤ))) :
    Except PyErr (List GroupDict × List String) :=
  if groups.length ≠ samples_list.length then
    Except.error (PyErr.runtimeError "Groups and Samples lists should be equal in length.")
  else
    match wells with
    | none =>
      if replicates = 0 then Except.error PyErr.valueError
      else Except.ok
        (buildConfig groups samples_list (autoWells (countSlots samples_list) replicates), groups)
    | some wlist =>
      if wlist.length ≠ countSlots samples_list then
        Except.error (PyErr.runtimeError
          "The length of the provided list of wells does not match the number of needed well groups.")
      else Except.ok (buildConfig groups samples_list wlist, groups)

/-- `Experiment.set_config`.  The result is the pair
(`self.configuration`, `self.groups`).  An empty `samples` list makes
`samples[0]` raise `IndexError` before any other processing. -/
def set_config (groups : List String) (samples : SamplesArg) (replicates : ℕ)
    (wells : Option (List (List ℤ))) : Except PyErr (List GroupDict × List String) :=
  match samples with
  | SamplesArg.flat [] => Except.error PyErr.indexError
  | SamplesArg.nested [] => Except.error PyErr.indexError
  | SamplesArg.flat (s :: ss) =>
      set_config_go groups (List.replicate groups.length (s :: ss)) replicates wells
  | SamplesArg.nested (l :: ls) => set_config_go groups (l :: ls) replicates wells
  | SamplesArg.other => Except.error (PyErr.runtimeError "Unable to understand the samples list.")

/-! ### `Experiment.set_config_from_file` (src/bioscreen.py lines 508-551) -/

/-- Top-level helper `w(a, b)` = `list(range(a, b+1))`. -/
def w (a b : ℤ) : List ℤ :=
  (List.range (b + 1 - a).toNat).map (fun i => a + i)

/-- Loop state of the file-parsing loop: the `groups` list, the
`group_config` dict of dicts, and the loop-carried local variable `wells`
(`none` while still unbound; using it unbound raises `NameError`). -/
structure FileState where
  groups : List String
  group_config : List (String × List (String × List ℤ))
  wells : Option (List ℤ)

/-- Assignment into the inner `group_config[group]` dict. -/
def innerInsert (d : List (String × List ℤ)) (k : String) (v : List ℤ) :
    List (String × List ℤ) :=
  if (assocFind? k d).isSome then
    d.map (fun p => if p.1 = k then (k, v) else p)
  else d ++ [(k, v)]

/-- The wells-notation parsing of one line: the `'-'` branch runs first and
the `','` branch can overwrite its result; with neither, the previous
iteration's `wells` value is silently reused (or `NameError` on the first
line). -/
def parseWellsField (wn : List Char) (prev : Option (List ℤ)) :
    Except PyErr (Option (List ℤ)) :=
  match
    (if '-' ∈ wn then
      let spl := pySplitCh '-' wn
      match pyIntChars? (spl.getD 0 []), pyIntChars? (spl.getD 1 []) with
      | some a, some b => Except.ok (some (w a b))
      | _, _ => Except.error PyErr.valueError
    else Except.ok prev : Except PyErr (Option (List ℤ))) with
  | Except.error e => Except.error e
  | Except.ok afterDash =>
    if ',' ∈ wn then
      match (pySplitCh ',' wn).mapM pyIntChars? with
      | some vs => Except.ok (some vs)
      | none => Except.error PyErr.valueError
    else Except.ok afterDash

/-- `line.startswith('#')`. -/
def startsHash : List Char → Bool
  | [] => false
  | c :: _ => c = '#'

/-- Processing of one line of the configuration file.  Comment lines are
skipped; a line with fewer than 3 tab-separated fields raises `IndexError`
when the missing field is indexed (the wrong-field-count diagnostic itself is
a non-fatal print); extra fields are ignored. -/
def parseLine (st : FileState) (line : String) : Except PyErr FileState :=
  if startsHash line.data then Except.ok st
  else
    let ls := pySplitCh '\t' (pyRstrip line.data)
    if ls.length < 3 then Except.error PyErr.indexError
    else
      let group0 := rename_strict (String.mk (ls.getD 0 []))
      let group := if pyLower group0 = "blank" then "blank" else group0
      let sample := rename_strict (String.mk (ls.getD 1 []))
      match parseWellsField (ls.getD 2 []) st.wells with
      | Except.error e => Except.error e
      | Except.ok none => Except.error PyErr.nameError
      | Except.ok (some ws) =>
        let groups := if group ∈ st.groups then st.groups else st.groups ++ [group]
        let group_config :=
          if (assocFind? group st.group_config).isSome then
            st.group_config.map (fun p =>
              if p.1 = group then (p.1, innerInsert p.2 sample ws) else p)
          else st.group_config ++ [(group, [(sample, ws)])]
        Except.ok ⟨groups, group_config, some ws⟩

/-- Fold a fallible step over a list, stopping at the first error
(the behaviour of a Python `for` loop whose body can raise). -/
def exceptFoldl (f : α → β → Except ε α) : α → List β → Except ε α
  | a, [] => Except.ok a
  | a, b :: bs =>
    match f a b with
    | Except.error e => Except.error e
    | Except.ok a2 => exceptFoldl f a2 bs

/-- `Experiment.set_config_from_file`, taking the file's lines (reading the
file itself is external IO).  Returns (`self.configuration`, `self.groups`). -/
def set_config_from_file (lines : List String) :
    Except PyErr (List GroupDict × List String) :=
  match exceptFoldl parseLine ⟨[], [], none⟩ lines with
  | Except.error e => Except.error e
  | Except.ok st =>
    Except.ok
      (st.groups.map (fun g =>
        (((assocFind? g st.group_config).map Prod.snd).getD []).foldl
          (fun d p => dictInsert d p.1 (ConfigVal.wells p.2))
          [("group", ConfigVal.name g)]),
       st.groups)

/-! ### `Experiment.summarize` (src/bioscreen.py lines 111-222) -/

/-- The raw plate-reader table after `pd.read_csv`: the `"Time"` column of
`HH:MM:SS` strings, and one numeric column per well, named by the well
number's decimal string.  Readings are modelled as rationals. -/
structure RawData where
  timeCol : List String
  cols : List (String × List ℚ)

/-- `self.loaded_data.shape[0]`: the number of rows. -/
def shape0 (d : RawData) : ℕ := d.timeCol.length

/-- Look up a column by name (first match, as in a well-formed frame). -/
def dfLookup (cols : List (String × List ℚ)) (nm : String) : Option (List ℚ) :=
  (assocFind? nm cols).map Prod.snd

/-- `df.filter(items, axis=1)`: keep the named columns, in `items` order;
names absent from the frame are silently dropped. -/
def dfFilter (cols : List (String × List ℚ)) (items : List String) : List (List ℚ) :=
  items.filterMap (dfLookup cols)

/-- Row `t` of `df.mean(axis=1)`: the mean across the columns, `NaN` (`none`)
when there is no column. -/
def rowMean (cols : List (List ℚ)) (t : ℕ) : Option ℚ :=
  match cols with
  | [] => none
  | _ => some ((cols.map (fun c => c.getD t 0)).sum / cols.length)

/-- `df.mean(axis=1)` over `n` rows. -/
def dfMean (cols : List (List ℚ)) (n : ℕ) : List (Option ℚ) :=
  (List.range n).map (rowMean cols)

/-- Pointwise Series subtraction; `NaN` (`none`) propagates. -/
def subSeries (a b : List (Option ℚ)) : List (Option ℚ) :=
  a.zipWith (fun x y => x.bind (fun xv => y.map (fun yv => xv - yv))) b

/-- `[str(x) for x in v]`: iterating a well list yields decimal strings,
iterating a string (a pathological dict value) yields its characters. -/
def colNames (v : ConfigVal) : List String :=
  match v with
  | ConfigVal.wells ws => ws.map (fun x => toString x)
  | ConfigVal.name s => s.data.map (fun c => String.mk [c])

/-- Python `'%s' % v` for a configuration value: a string prints itself, a
well list prints as `[a, b, ...]`. -/
def pyStrVal : ConfigVal → String
  | ConfigVal.name s => s
  | ConfigVal.wells ws => "[" ++ String.intercalate ", " (ws.map (fun x => toString x)) ++ "]"

/-- The accepted `timepoints` unit strings (src line 157). -/
def timepoints_possible : List String :=
  ["days", "hours", "minutes", "d", "h", "m", "min", "mins", "day", "hour"]

/-- The error message for a malformed time value. -/
def timeFormatErrMsg : String := "Time values not in expected format, which is HH:MM:SS"

/-- Conversion of one parsed `[HH, MM, SS]` row (src lines 174-185):
`tm_mins = MM + SS/60`, `tm_hours = HH + tm_mins/60`; minutes add `HH*60`,
days divide hours by 24.  Fewer than three fields raises `IndexError`. -/
def convert_tm (tp : String) (spl : List ℤ) : Except PyErr ℚ :=
  if spl.length < 3 then Except.error PyErr.indexError
  else
    let hh : ℚ := (spl.getD 0 0 : ℤ)
    let mm : ℚ := (spl.getD 1 0 : ℤ)
    let ss : ℚ := (spl.getD 2 0 : ℤ)
    let tm_mins : ℚ := mm + ss / 60
    let tm_hours : ℚ := hh + tm_mins / 60
    if tp = "minutes" ∨ tp = "min" ∨ tp = "mins" ∨ tp = "m" then
      Except.ok (tm_mins + hh * 60)
    else if tp = "hours" ∨ tp = "hour" ∨ tp = "h" then Except.ok tm_hours
    else if tp = "days" ∨ tp = "day" ∨ tp = "d" then Except.ok (tm_hours / 24)
    else Except.error (PyErr.runtimeError "Timepoints argument not a valid value: days, hours, or minutes")

/-- Map a fallible function over a list, stopping at the first error. -/
def exceptMapM (f : α → Except ε β) : List α → Except ε (List β)
  | [] => Except.ok []
  | a :: t =>
    match f a with
    | Except.error e => Except.error e
    | Except.ok b =>
      match exceptMapM f t with
      | Except.error e => Except.error e
      | Except.ok r => Except.ok (b :: r)

/-- `[int(x) for x in tm.split(':')]`; a non-numeric field raises `ValueError`. -/
def parseIntList (ls : List (List Char)) : Except PyErr (List ℤ) :=
  exceptMapM (fun t =>
    match pyIntChars? t with
    | some v => Except.ok v
    | none => Except.error PyErr.valueError) ls

/-- The string branch of the timepoints handling (src lines 154-187):
lowercase and validate the unit, validate only the first row's `HH:MM:SS`
format, then convert every row. -/
def convert_timepoints (timepoints0 : String) (time_column : List String) :
    Except PyErr (List ℚ) :=
  let timepoints := pyLower timepoints0
  if timepoints ∉ timepoints_possible then
    Except.error (PyErr.runtimeError "Timepoints argument not a valid value: days, hours, or minutes")
  else
    match time_column with
    | [] => Except.error PyErr.indexError
    | t0 :: _ =>
      let test_time := pySplitCh ':' t0.data
      if test_time.length ≠ 3 then Except.error (PyErr.runtimeError timeFormatErrMsg)
      else if ¬ (∀ tt ∈ test_time, tt.length = 2) then
        Except.error (PyErr.runtimeError timeFormatErrMsg)
      else
        exceptMapM (fun tm =>
          match parseIntList (pySplitCh ':' tm.data) with
          | Except.error e => Except.error e
          | Except.ok spl => convert_tm timepoints spl) time_column

/-- The `timepoints` argument of `summarize`: a numeric list or a unit name. -/
inductive TimepointsArg where
  | list (l : List ℚ)
  | str (s : String)

/-- The timepoints handling of `summarize` (src lines 142-190). -/
def timepointsResult (data : RawData) (tp : TimepointsArg) : Except PyErr (List ℚ) :=
  match tp with
  | TimepointsArg.list l =>
    if l.length ≠ shape0 data then
      Except.error (PyErr.runtimeError "List given in timepoints argument is not of correct length.")
    else Except.ok l
  | TimepointsArg.str s => convert_timepoints s data.timeCol

/-- The summary table: a `"Time"` column followed by one `"Group__Sample"`
column per sample; `none` entries are `NaN`. -/
abbrev SummaryTable := List (String × List (Option ℚ))

/-- The dict entries iterated by the sample loop: every key except the
pseudo-keys `group` and `blank` (`if (sample == 'group') or (sample ==
'blank'): continue`). -/
def realSamples : GroupDict → GroupDict
  | [] => []
  | p :: rest =>
      if p.1 = "group" ∨ p.1 = "blank" then realSamples rest
      else p :: realSamples rest

/-- Processing of one group (src lines 197-222): the blank baseline is the
per-row mean of the blank wells (all zeros when no `"blank"` key), and every
sample other than the pseudo-keys `group` and `blank` yields one column of
blanked means.  `group['group']` is only evaluated inside the sample loop, so
a missing `"group"` key raises `KeyError` only when there is a sample. -/
def summarizeGroup (data : RawData) (gd : GroupDict) :
    Except PyErr (List (String × List (Option ℚ))) :=
  let n := shape0 data
  let blank_mean : List (Option ℚ) :=
    match dictGet? gd "blank" with
    | some v => dfMean (dfFilter data.cols (colNames v)) n
    | none => (List.range n).map (fun _ => some 0)
  match realSamples gd, dictGet? gd "group" with
  | [], _ => Except.ok []
  | _ :: _, none => Except.error PyErr.keyError
  | ss, some gv =>
    Except.ok (ss.map (fun p =>
      (pyStrVal gv ++ "__" ++ p.1,
       subSeries (dfMean (dfFilter data.cols (colNames p.2)) n) blank_mean)))

/-- `Experiment.summarize`, applied to an already-loaded raw table (reading
the data file is external IO). -/
def summarize (config : List GroupDict) (data : RawData) (tp : TimepointsArg) :
    Except PyErr SummaryTable :=
  match timepointsResult data tp with
  | Except.error e => Except.error e
  | Except.ok tps =>
    match exceptMapM (summarizeGroup data) config with
    | Except.error e => Except.error e
    | Except.ok gts => Except.ok (("Time", tps.map some) :: gts.flatten)

/-! ### `write_summary` / `load_summary` (src lines 94-108 and 225-234) -/

/-- Modelled from the spec: serializing the summary table to the flat
tab-delimited file and reading it back (`DataFrame.to_csv` /
`pd.read_table`) is an external collaborator; per the spec the written values
round-trip ("values, not necessarily types"), so the written file is
modelled as the table of values itself. -/
def write_summary (tbl : SummaryTable) : SummaryTable := tbl

/-- The non-`"Time"` column names (`[x for x in columns if x != 'Time']`). -/
def nonTimeCols : List String → List String
  | [] => []
  | c :: rest => if c = "Time" then nonTimeCols rest else c :: nonTimeCols rest

/-- `Experiment.load_summary` on the read-back table: `self.groups` is the
first-seen deduplication of each non-`"Time"` column name's segment before
the first `"__"`; `self.timepoints` is the `"Time"` column. -/
def load_summary (tbl : SummaryTable) : List String × Option (List (Option ℚ)) :=
  let summary_columns := nonTimeCols (tbl.map Prod.fst)
  let groups := summary_columns.foldl
    (fun gs c => if firstSegDU c ∈ gs then gs else gs ++ [firstSegDU c]) []
  (groups, (assocFind? "Time" tbl).map Prod.snd)

/-! ### Observers used by the statements -/

/-- The well lists stored in a configuration, in slot order. -/
def slotWellLists (config : List GroupDict) : List (List ℤ) :=
  config.flatMap (fun gd => gd.filterMap (fun p =>
    match p.2 with
    | ConfigVal.wells ws => some ws
    | ConfigVal.name _ => none))

/-- All stored well numbers of a configuration, in slot order. -/
def wellsFlat (config : List GroupDict) : List ℤ := (slotWellLists config).flatten

/-- The group-name list of a configuration (the `"group"` entries). -/
def configGroups (config : List GroupDict) : List String :=
  config.filterMap (fun gd =>
    match dictGet? gd "group" with
    | some (ConfigVal.name s) => some s
    | _ => none)

/-- The ten ASCII digits. -/
def digitChars : List Char := ['0', '1', '2', '3', '4', '5', '6', '7', '8', '9']

/-- The numeric value of a two-digit field with digits `a` and `b`. -/
def digitVal2 (a b : Char) : ℚ := ((10 * (a.toNat - 48) + (b.toNat - 48) : ℕ) : ℚ)

/-! ## Theorems -/

theorem digitChar_facts :
    ∀ c ∈ digitChars, c ≠ ':' ∧ c ≠ '-' ∧ c ≠ '+' ∧ c.isDigit = true := by decide

theorem dvc0 : '0'.toNat - 48 = 0 := by decide

theorem dvc1 : '1'.toNat - 48 = 1 := by decide

theorem dvc2 : '2'.toNat - 48 = 2 := by decide

theorem dvc3 : '3'.toNat - 48 = 3 := by decide

theorem dvc4 : '4'.toNat - 48 = 4 := by decide

theorem dvc5 : '5'.toNat - 48 = 5 := by decide

theorem dvc9 : '9'.toNat - 48 = 9 := by decide

theorem pySplitCh_hhmmss (h1 h2 m1 m2 s1 s2 : Char)
    (hc1 : h1 ≠ ':') (hc2 : h2 ≠ ':') (hc3 : m1 ≠ ':') (hc4 : m2 ≠ ':')
    (hc5 : s1 ≠ ':') (hc6 : s2 ≠ ':') :
    pySplitCh ':' [h1, h2, ':', m1, m2, ':', s1, s2] = [[h1, h2], [m1, m2], [s1, s2]] := by
  simp [pySplitCh, hc1, hc2, hc3, hc4, hc5, hc6]

/-- C3: for every time string `"HH:MM:SS"` with two-digit fields, the
converted timepoint is `MM + SS/60 + HH*60` for unit `minutes`,
`HH + (MM + SS/60)/60` for unit `hours`, and that `hours` value divided by
24 for unit `days`. -/
theorem convert_timepoints_hhmmss (h1 h2 m1 m2 s1 s2 : Char)
    (hh1 : h1 ∈ digitChars) (hh2 : h2 ∈ digitChars) (hm1 : m1 ∈ digitChars)
    (hm2 : m2 ∈ digitChars) (hs1 : s1 ∈ digitChars) (hs2 : s2 ∈ digitChars) :
    convert_timepoints "minutes" [String.mk [h1, h2, ':', m1, m2, ':', s1, s2]]
        = Except.ok [digitVal2 m1 m2 + digitVal2 s1 s2 / 60 + digitVal2 h1 h2 * 60]
    ∧ convert_timepoints "hours" [String.mk [h1, h2, ':', m1, m2, ':', s1, s2]]
        = Except.ok [digitVal2 h1 h2 + (digitVal2 m1 m2 + digitVal2 s1 s2 / 60) / 60]
    ∧ convert_timepoints "days" [String.mk [h1, h2, ':', m1, m2, ':', s1, s2]]
        = Except.ok [(digitVal2 h1 h2 + (digitVal2 m1 m2 + digitVal2 s1 s2 / 60) / 60) / 24] := by
  obtain ⟨hc1, hd1, hp1, hg1⟩ := digitChar_facts h1 hh1
  obtain ⟨hc2, hd2, hp2, hg2⟩ := digitChar_facts h2 hh2
  obtain ⟨hc3, hd3, hp3, hg3⟩ := digitChar_facts m1 hm1
  obtain ⟨hc4, hd4, hp4, hg4⟩ := digitChar_facts m2 hm2
  obtain ⟨hc5, hd5, hp5, hg5⟩ := digitChar_facts s1 hs1
  obtain ⟨hc6, hd6, hp6, hg6⟩ := digitChar_facts s2 hs2
  have hsplit := pySplitCh_hhmmss h1 h2 m1 m2 s1 s2 hc1 hc2 hc3 hc4 hc5 hc6
  have hsplit2 : pySplitCh ':' (String.mk [h1, h2, ':', m1, m2, ':', s1, s2]).data
      = [[h1, h2], [m1, m2], [s1, s2]] := hsplit
  have hall : ∀ tt ∈ pySplitCh ':' [h1, h2, ':', m1, m2, ':', s1, s2], tt.length = 2 := by
    rw [hsplit]; simp
  have hni := not_not_intro hall
  refine ⟨?_, ?_, ?_⟩ <;>
  · simp +decide only [convert_timepoints, pyLower, hsplit, hsplit2, parseIntList, exceptMapM,
      pyIntChars?, convert_tm, timepoints_possible, timeFormatErrMsg,
      hd1, hd3, hd5, hp1, hp3, hp5, hg1, hg2, hg3, hg4, hg5, hg6,
      List.all_cons, List.all_nil, List.map, List.length, List.mem_cons,
      List.getD, List.getElem?_cons_zero, List.getElem?_cons_succ, Option.getD,
      if_false, if_true, ite_false, ite_true]
    rw [if_neg hni]
    simp +decide only [Except.ok.injEq, List.cons.injEq, and_true, digitVal2, digitsVal,
      List.foldl, List.get?_cons_zero, List.get?_cons_succ, List.getD, Option.getD]
    push_cast
    ring

/-- Witness for C3 at the spec's example `"01:30:00"`:
90 minutes, 1.5 hours, 0.0625 days. -/
theorem convert_timepoints_hhmmss_witness :
    convert_timepoints "minutes" ["01:30:00"] = Except.ok [90]
    ∧ convert_timepoints "hours" ["01:30:00"] = Except.ok [3 / 2]
    ∧ convert_timepoints "days" ["01:30:00"] = Except.ok [1 / 16] := by
  have h := convert_timepoints_hhmmss '0' '1' '3' '0' '0' '0'
    (by decide) (by decide) (by decide) (by decide) (by decide) (by decide)
  refine ⟨?_, ?_, ?_⟩
  · rw [show ("01:30:00" : String) = String.mk ['0', '1', ':', '3', '0', ':', '0', '0'] from rfl, h.1]
    norm_num [digitVal2, dvc0, dvc1, dvc3]
  · rw [show ("01:30:00" : String) = String.mk ['0', '1', ':', '3', '0', ':', '0', '0'] from rfl, h.2.1]
    norm_num [digitVal2, dvc0, dvc1, dvc3]
  · rw [show ("01:30:00" : String) = String.mk ['0', '1', ':', '3', '0', ':', '0', '0'] from rfl, h.2.2]
    norm_num [digitVal2, dvc0, dvc1, dvc3]

/-! ### String-splitting helper lemmas -/

theorem pySplitCh_ne_nil (sep : Char) (l : List Char) : pySplitCh sep l ≠ [] := by
  cases l with
  | nil => simp [pySplitCh]
  | cons c rest =>
    simp only [pySplitCh]
    cases h : pySplitCh sep rest with
    | nil => simp
    | cons s ss => by_cases hc : c = sep <;> simp [hc]

theorem pySplitCh_no_sep (sep : Char) (xs : List Char) (h : sep ∉ xs) :
    pySplitCh sep xs = [xs] := by
  induction xs with
  | nil => simp [pySplitCh]
  | cons c t ih =>
    have hc : c ≠ sep := fun hceq => h (hceq ▸ List.mem_cons_self c t)
    have ht : sep ∉ t := fun hmem => h (List.mem_cons_of_mem c hmem)
    simp only [pySplitCh, ih ht]
    simp [hc]

theorem pySplitCh_append_sep (sep : Char) (xs rest : List Char) (h : sep ∉ xs) :
    pySplitCh sep (xs ++ sep :: rest) = xs :: pySplitCh sep rest := by
  induction xs with
  | nil =>
    simp only [List.nil_append, pySplitCh]
    cases hres : pySplitCh sep rest with
    | nil => exact absurd hres (pySplitCh_ne_nil sep rest)
    | cons s ss => simp
  | cons c t ih =>
    have hc : c ≠ sep := fun hceq => h (hceq ▸ List.mem_cons_self c t)
    have ht : sep ∉ t := fun hmem => h (List.mem_cons_of_mem c hmem)
    simp only [List.cons_append, pySplitCh, List.append_eq]
    rw [ih ht]
    simp [hc]

theorem dropWhile_head_false {p : Char → Bool} (l : List Char)
    (h : ∀ c, l.head? = some c → p c = false) : l.dropWhile p = l := by
  cases l with
  | nil => rfl
  | cons a t => simp [List.dropWhile, h a rfl]

theorem pyRstrip_eq_self (l : List Char)
    (h : ∀ c, l.getLast? = some c → c.isWhitespace = false) : pyRstrip l = l := by
  unfold pyRstrip
  rw [dropWhile_head_false l.reverse (fun c hc => h c (by rwa [List.head?_reverse] at hc)),
    List.reverse_reverse]

/-! ### C9: empty / malformed samples input -/

/-- C9 counterexample: calling `set_config` with an empty samples list fails
with an `IndexError` from evaluating `samples[0]`, not with a descriptive
configuration error (no `RuntimeError` with a message is raised). -/
theorem set_config_empty_samples_counterexample :
    set_config ["A"] (SamplesArg.flat []) 4 none = Except.error PyErr.indexError
    ∧ ¬ ∃ msg : String,
        set_config ["A"] (SamplesArg.flat []) 4 none = Except.error (PyErr.runtimeError msg) := by
  refine ⟨rfl, ?_⟩
  rintro ⟨msg, h⟩
  rw [show set_config ["A"] (SamplesArg.flat []) 4 none = Except.error PyErr.indexError from rfl]
    at h
  simp at h

/-- C9 amended: `set_config` with an empty samples list fails immediately
with an uncaught `IndexError` (not a descriptive `ConfigurationError`), and a
samples list whose first element is neither a string nor a list fails with a
descriptive `RuntimeError`; in both cases no configuration is produced. -/
theorem set_config_empty_samples_amended (groups : List String) (r : ℕ)
    (wl : Option (List (List ℤ))) :
    set_config groups (SamplesArg.flat []) r wl = Except.error PyErr.indexError
    ∧ set_config groups (SamplesArg.nested []) r wl = Except.error PyErr.indexError
    ∧ set_config groups SamplesArg.other r wl
        = Except.error (PyErr.runtimeError "Unable to understand the samples list.") :=
  ⟨rfl, rfl, rfl⟩

/-! ### C6: duplicate group names -/

/-- C6 counterexample: `set_config` with the duplicated group list
`['A', 'A']` succeeds and returns a configuration with two entries both named
`"A"` — no error of any kind is raised. -/
theorem set_config_duplicate_groups_counterexample :
    set_config ["A", "A"] (SamplesArg.flat ["x"]) 1 none
      = Except.ok ([[("group", ConfigVal.name "A"), ("x", ConfigVal.wells [1])],
                    [("group", ConfigVal.name "A"), ("x", ConfigVal.wells [2])]],
                   ["A", "A"]) := by decide

/-! ### C5: name sanitization at the builder entry points -/

/-- C5 counterexample: `set_config` stores the group name `"a b"` and the
sample name `"s#1"` verbatim, while `rename_strict` would have produced
`"a_b"` (and `"s_1"`): the stored names are not the sanitized names. -/
theorem set_config_no_sanitize_counterexample :
    set_config ["a b"] (SamplesArg.flat ["s#1"]) 1 none
      = Except.ok ([[("group", ConfigVal.name "a b"), ("s#1", ConfigVal.wells [1])]], ["a b"])
    ∧ rename_strict "a b" = "a_b" ∧ ("a b" : String) ≠ "a_b" := by
  refine ⟨by decide, by decide, by decide⟩

/-- C5 amended: sanitization is applied by `set_config_from_file` only.
`set_config` stores every supplied group and sample name verbatim, while
`set_config_from_file` stores `rename_strict` of the group and sample tokens
of each line (a group token whose sanitized form lowercases to `"blank"` is
stored as `"blank"`), shown here for a one-line configuration file. -/
theorem sanitize_entry_points_amended :
    (∀ (g s : String) (ws : List ℤ) (r : ℕ), s ≠ "group" →
      set_config [g] (SamplesArg.flat [s]) r (some [ws])
        = Except.ok ([[("group", ConfigVal.name g), (s, ConfigVal.wells ws)]], [g]))
    ∧ (∀ gtok stok : List Char,
        startsHash gtok = false → '\t' ∉ gtok → '\t' ∉ stok →
        rename_strict (String.mk stok) ≠ "group" →
        set_config_from_file [String.mk (gtok ++ '\t' :: (stok ++ '\t' :: ['1', ',', '2']))]
          = Except.ok
              ([[("group", ConfigVal.name
                    (if pyLower (rename_strict (String.mk gtok)) = "blank" then "blank"
                     else rename_strict (String.mk gtok))),
                 (rename_strict (String.mk stok), ConfigVal.wells [1, 2])]],
               [if pyLower (rename_strict (String.mk gtok)) = "blank" then "blank"
                else rename_strict (String.mk gtok)])) := by
  constructor
  · intro g s ws r hs
    have hs2 : ("group" : String) ≠ s := Ne.symm hs
    simp +decide [set_config, set_config_go, countSlots, buildConfig, buildGroupDict,
      dictInsert, assocFind?, List.replicate, hs2]
  · intro gtok stok hgh hg hs hsg
    have hsg2 : ("group" : String) ≠ rename_strict (String.mk stok) := Ne.symm hsg
    have hassoc : gtok ++ '\t' :: (stok ++ '\t' :: ['1', ',', '2'])
        = (gtok ++ '\t' :: (stok ++ '\t' :: ['1', ','])) ++ ['2'] := by simp
    have hr : pyRstrip (gtok ++ '\t' :: (stok ++ '\t' :: ['1', ',', '2']))
        = gtok ++ '\t' :: (stok ++ '\t' :: ['1', ',', '2']) := by
      apply pyRstrip_eq_self
      intro c hc
      rw [hassoc, List.getLast?_concat] at hc
      cases hc
      decide
    have hsplitline : pySplitCh '\t' (gtok ++ '\t' :: (stok ++ '\t' :: ['1', ',', '2']))
        = [gtok, stok, ['1', ',', '2']] := by
      rw [pySplitCh_append_sep '\t' gtok _ hg, pySplitCh_append_sep '\t' stok _ hs,
        pySplitCh_no_sep '\t' ['1', ',', '2'] (by decide)]
    have hstart : startsHash (gtok ++ '\t' :: (stok ++ '\t' :: ['1', ',', '2'])) = false := by
      cases gtok with
      | nil => simp [startsHash]
      | cons c t =>
        rw [List.cons_append]
        simpa [startsHash] using hgh
    have hwells : parseWellsField ['1', ',', '2'] none = Except.ok (some [1, 2]) := by decide
    have hdata : ∀ l : List Char, (String.mk l).data = l := fun _ => rfl
    simp only [set_config_from_file, exceptFoldl, parseLine, hdata, hstart, hr, hsplitline,
      hwells, Bool.false_eq_true, if_false, List.getD, List.getElem?_cons_zero,
      List.getElem?_cons_succ, Option.getD, List.length, Nat.lt_irrefl]
    simp +decide [hwells, assocFind?, dictInsert, hsg2]

/-- Witness for C5's amended theorem: `set_config` stores `("a b", "s 1")`
verbatim; a file line `"My Group\ts 1\t1,2"` is stored sanitized. -/
theorem sanitize_entry_points_amended_witness :
    set_config ["a b"] (SamplesArg.flat ["s 1"]) 4 (some [[7]])
      = Except.ok ([[("group", ConfigVal.name "a b"), ("s 1", ConfigVal.wells [7])]], ["a b"])
    ∧ set_config_from_file [String.mk ("My Group".data ++ '\t' :: ("s 1".data ++ '\t' :: ['1', ',', '2']))]
        = Except.ok
            ([[("group", ConfigVal.name
                  (if pyLower (rename_strict (String.mk "My Group".data)) = "blank" then "blank"
                   else rename_strict (String.mk "My Group".data))),
               (rename_strict (String.mk "s 1".data), ConfigVal.wells [1, 2])]],
             [if pyLower (rename_strict (String.mk "My Group".data)) = "blank" then "blank"
              else rename_strict (String.mk "My Group".data)]) :=
  ⟨sanitize_entry_points_amended.1 "a b" "s 1" [7] 4 (by decide),
   sanitize_entry_points_amended.2 "My Group".data "s 1".data
     (by decide) (by decide) (by decide) (by decide)⟩

/-! ### C10: a sample literally named `"group"` -/

/-- C10: when a per-group sample list contains a sample literally named
`"group"`, `set_config` succeeds, the entry's `"group"` key ends up holding
that sample's auto-assigned well list instead of the declared group name, and
`summarize` skips that entry (its output has only the `"Time"` column and the
other sample's column, itself labelled with the well-list repr), silently
dropping the `"group"` sample's data. -/
theorem sample_named_group_dropped (g s : String) (r : ℕ) (data : RawData) (u : String)
    (tps : List ℚ) (hr : 1 ≤ r) (hs1 : s ≠ "group") (hs2 : s ≠ "blank")
    (hconv : convert_timepoints u data.timeCol = Except.ok tps) :
    set_config [g] (SamplesArg.flat [s, "group"]) r none
      = Except.ok ([[("group", ConfigVal.wells ((List.range' (r + 1) r).map Int.ofNat)),
                     (s, ConfigVal.wells ((List.range' 1 r).map Int.ofNat))]], [g])
    ∧ ∃ tbl, summarize
          [[("group", ConfigVal.wells ((List.range' (r + 1) r).map Int.ofNat)),
            (s, ConfigVal.wells ((List.range' 1 r).map Int.ofNat))]] data (TimepointsArg.str u)
          = Except.ok tbl
        ∧ tbl.map Prod.fst
            = ["Time",
               pyStrVal (ConfigVal.wells ((List.range' (r + 1) r).map Int.ofNat)) ++ "__" ++ s] := by
  have hr0 : r ≠ 0 := by omega
  have hsg2 : ("group" : String) ≠ s := Ne.symm hs1
  constructor
  · simp +decide [set_config, set_config_go, countSlots, autoWells, buildConfig, buildGroupDict,
      dictInsert, assocFind?, List.replicate, List.range, List.range.loop, hr0, hs1, hsg2]
  · have hsum : summarize
        [[("group", ConfigVal.wells ((List.range' (r + 1) r).map Int.ofNat)),
          (s, ConfigVal.wells ((List.range' 1 r).map Int.ofNat))]] data (TimepointsArg.str u)
        = Except.ok [("Time", tps.map some),
            (pyStrVal (ConfigVal.wells ((List.range' (r + 1) r).map Int.ofNat)) ++ "__" ++ s,
             subSeries
               (dfMean (dfFilter data.cols (colNames (ConfigVal.wells ((List.range' 1 r).map Int.ofNat))))
                 (shape0 data))
               ((List.range (shape0 data)).map (fun _ => some 0)))] := by
      simp +decide only [summarize, timepointsResult, hconv, exceptMapM, summarizeGroup,
        dictGet?, assocFind?, realSamples, hs1, hs2, Option.map, List.map, List.flatten,
        if_false, if_true, ite_false, ite_true, List.append_nil, List.cons_append,
        List.nil_append, false_or, or_false]
    exact ⟨_, hsum, by simp⟩

/-- Witness for C10 at `g = "G"`, `s = "a"`, `r = 1`, a one-row table. -/
theorem sample_named_group_dropped_witness :
    set_config ["G"] (SamplesArg.flat ["a", "group"]) 1 none
      = Except.ok ([[("group", ConfigVal.wells ((List.range' (1 + 1) 1).map Int.ofNat)),
                     ("a", ConfigVal.wells ((List.range' 1 1).map Int.ofNat))]], ["G"])
    ∧ ∃ tbl, summarize
          [[("group", ConfigVal.wells ((List.range' (1 + 1) 1).map Int.ofNat)),
            ("a", ConfigVal.wells ((List.range' 1 1).map Int.ofNat))]]
          ⟨["00:00:00"], []⟩ (TimepointsArg.str "hours")
          = Except.ok tbl
        ∧ tbl.map Prod.fst
            = ["Time",
               pyStrVal (ConfigVal.wells ((List.range' (1 + 1) 1).map Int.ofNat)) ++ "__" ++ "a"] :=
  sample_named_group_dropped "G" "a" 1 ⟨["00:00:00"], []⟩ "hours" [0]
    (by decide) (by decide) (by decide)
    (by simp +decide only [convert_timepoints, pyLower, pySplitCh, parseIntList, exceptMapM,
          pyIntChars?, convert_tm, timepoints_possible, timeFormatErrMsg]
        norm_num [digitsVal, dvc0])

/-! ### Mean and series helper lemmas -/

theorem filterMap_eq_map_of {α β : Type} (l : List α) (f : α → Option β) (g : α → β)
    (h : ∀ x ∈ l, f x = some (g x)) : l.filterMap f = l.map g := by
  induction l with
  | nil => rfl
  | cons a t ih =>
    simp only [List.filterMap_cons, h a (List.mem_cons_self a t), List.map_cons]
    rw [ih (fun x hx => h x (List.mem_cons_of_mem a hx))]

theorem rowMean_const (cols : List (List ℚ)) (n : ℕ) (k : ℚ) (t : ℕ)
    (hne : cols ≠ []) (hconst : ∀ c ∈ cols, c = List.replicate n k) (ht : t < n) :
    rowMean cols t = some k := by
  cases cols with
  | nil => exact absurd rfl hne
  | cons c0 cs =>
    simp only [rowMean]
    have hval : ∀ c ∈ c0 :: cs, c.getD t 0 = k := by
      intro c hc
      rw [hconst c hc]
      simp [List.getD, List.getElem?_replicate, ht]
    rw [List.map_congr_left hval, List.map_const']
    have hlen : (((c0 :: cs).length : ℚ)) ≠ 0 :=
      Nat.cast_ne_zero.mpr (Nat.succ_ne_zero cs.length)
    rw [List.sum_replicate, nsmul_eq_mul, mul_div_cancel_left₀ k hlen]

theorem dfMean_const (cols : List (List ℚ)) (n : ℕ) (k : ℚ)
    (hne : cols ≠ []) (hconst : ∀ c ∈ cols, c = List.replicate n k) :
    dfMean cols n = List.replicate n (some k) := by
  unfold dfMean
  rw [List.map_congr_left
    (fun t ht => rowMean_const cols n k t hne hconst (List.mem_range.mp ht)),
    List.map_const', List.length_range]

theorem subSeries_replicate (n : ℕ) (a b : ℚ) :
    subSeries (List.replicate n (some a)) (List.replicate n (some b))
      = List.replicate n (some (a - b)) := by
  induction n with
  | zero => rfl
  | succ m ih => simp only [List.replicate_succ, subSeries, List.zipWith_cons_cons] at ih ⊢
                 simp [ih, Option.bind, Option.map]

/-! ### C1: blank subtraction -/

/-- C1: for a group declaring a `"blank"` sample, `summarize` subtracts the
per-timepoint mean of the blank wells from the other sample's per-timepoint
well mean: when every blank well reads the constant `k` and every well of
sample `s` reads `k + d` at every timepoint, the summarized series of `s` is
the constant `d` at every timepoint. -/
theorem blank_subtraction (gname s : String) (B W : List ℤ) (k d : ℚ) (data : RawData)
    (u : String) (tps : List ℚ)
    (hs1 : s ≠ "group") (hs2 : s ≠ "blank") (hB : B ≠ []) (hW : W ≠ [])
    (hBdata : ∀ b ∈ B, dfLookup data.cols (toString b) = some (List.replicate (shape0 data) k))
    (hWdata : ∀ x ∈ W, dfLookup data.cols (toString x) = some (List.replicate (shape0 data) (k + d)))
    (hconv : convert_timepoints u data.timeCol = Except.ok tps) :
    summarize
        [[("group", ConfigVal.name gname), ("blank", ConfigVal.wells B), (s, ConfigVal.wells W)]]
        data (TimepointsArg.str u)
      = Except.ok [("Time", tps.map some),
                   (gname ++ "__" ++ s, List.replicate (shape0 data) (some d))] := by
  have hBmean : dfMean (dfFilter data.cols (B.map (fun x => toString x))) (shape0 data)
      = List.replicate (shape0 data) (some k) := by
    unfold dfFilter
    rw [filterMap_eq_map_of (B.map (fun x => toString x)) _
      (fun _ => List.replicate (shape0 data) k)
      (by rintro x hx
          obtain ⟨b, hb, rfl⟩ := List.mem_map.mp hx
          exact hBdata b hb)]
    apply dfMean_const
    · simpa using hB
    · intro c hc
      obtain ⟨b, _, rfl⟩ := List.mem_map.mp hc
      rfl
  have hWmean : dfMean (dfFilter data.cols (W.map (fun x => toString x))) (shape0 data)
      = List.replicate (shape0 data) (some (k + d)) := by
    unfold dfFilter
    rw [filterMap_eq_map_of (W.map (fun x => toString x)) _
      (fun _ => List.replicate (shape0 data) (k + d))
      (by rintro x hx
          obtain ⟨b, hb, rfl⟩ := List.mem_map.mp hx
          exact hWdata b hb)]
    apply dfMean_const
    · simpa using hW
    · intro c hc
      obtain ⟨b, _, rfl⟩ := List.mem_map.mp hc
      rfl
  have hmain : summarizeGroup data
      [("group", ConfigVal.name gname), ("blank", ConfigVal.wells B), (s, ConfigVal.wells W)]
      = Except.ok [(gname ++ "__" ++ s, List.replicate (shape0 data) (some d))] := by
    simp +decide only [summarizeGroup, dictGet?, assocFind?, realSamples, colNames, pyStrVal,
      hs1, hs2, Option.map, List.map, if_true, if_false, ite_true, ite_false, false_or, or_false]
    rw [hBmean, hWmean, subSeries_replicate, add_sub_cancel_left]
  simp only [summarize, timepointsResult, hconv, exceptMapM, hmain, List.flatten,
    List.append_nil, List.cons_append, List.nil_append]

/-- Witness for C1: blank well 1 reads the constant 5, sample well 2 reads
the constant 7 = 5 + 2, and the summarized series for the sample is the
constant 2. -/
theorem blank_subtraction_witness :
    summarize
        [[("group", ConfigVal.name "G"), ("blank", ConfigVal.wells [1]), ("x", ConfigVal.wells [2])]]
        ⟨["00:00:00"], [("1", [5]), ("2", [7])]⟩ (TimepointsArg.str "hours")
      = Except.ok [("Time", List.map some [0]),
                   ("G" ++ "__" ++ "x", List.replicate (shape0 ⟨["00:00:00"], [("1", [5]), ("2", [7])]⟩) (some 2))] := by
  have h := blank_subtraction "G" "x" [1] [2] 5 2
    ⟨["00:00:00"], [("1", [5]), ("2", [7])]⟩ "hours" [0]
    (by decide) (by decide) (by decide) (by decide)
    (by decide)
    (by norm_num +decide [dfLookup, assocFind?, shape0, List.replicate])
    (by simp +decide only [convert_timepoints, pyLower, pySplitCh, parseIntList, exceptMapM,
          pyIntChars?, convert_tm, timepoints_possible, timeFormatErrMsg]
        norm_num [digitsVal, dvc0])
  exact h

/-! ### C4: groups without a blank sample -/

theorem dfFilter_map_toString (cols : List (String × List ℚ)) (W : List ℤ)
    (vals : ℤ → List ℚ)
    (h : ∀ x ∈ W, dfLookup cols (toString x) = some (vals x)) :
    dfFilter cols (W.map (fun x => toString x)) = W.map vals := by
  induction W with
  | nil => rfl
  | cons a t ih =>
    simp only [List.map_cons, dfFilter, List.filterMap_cons] at ih ⊢
    rw [h a (List.mem_cons_self a t), ih (fun x hx => h x (List.mem_cons_of_mem a hx))]

theorem subSeries_map_zero (n : ℕ) (f : ℕ → Option ℚ) :
    subSeries ((List.range n).map f) ((List.range n).map (fun _ => some 0))
      = (List.range n).map f := by
  unfold subSeries
  rw [List.zipWith_map, List.zipWith_same]
  apply List.map_congr_left
  intro t _
  cases f t with
  | none => rfl
  | some v => simp [Option.bind, Option.map]

/-- C4: for a group with no sample named `"blank"`, the baseline is the
constant 0, so the summarized series equals the raw per-timepoint mean over
the sample's wells, unaltered. -/
theorem no_blank_raw_mean (gname s : String) (W : List ℤ) (data : RawData)
    (u : String) (tps : List ℚ) (vals : ℤ → List ℚ)
    (hs1 : s ≠ "group") (hs2 : s ≠ "blank") (hW : W ≠ [])
    (hWdata : ∀ x ∈ W, dfLookup data.cols (toString x) = some (vals x))
    (hconv : convert_timepoints u data.timeCol = Except.ok tps) :
    summarize [[("group", ConfigVal.name gname), (s, ConfigVal.wells W)]]
        data (TimepointsArg.str u)
      = Except.ok [("Time", tps.map some),
                   (gname ++ "__" ++ s,
                    (List.range (shape0 data)).map (fun t =>
                      some ((W.map (fun x => (vals x).getD t 0)).sum / W.length)))] := by
  have hmean : dfMean (dfFilter data.cols (W.map (fun x => toString x))) (shape0 data)
      = (List.range (shape0 data)).map (fun t =>
          some ((W.map (fun x => (vals x).getD t 0)).sum / W.length)) := by
    rw [dfFilter_map_toString data.cols W vals hWdata]
    unfold dfMean
    apply List.map_congr_left
    intro t _
    cases W with
    | nil => exact absurd rfl hW
    | cons w0 ws =>
      simp only [List.map_cons, rowMean, List.map_map, Function.comp, List.length_map,
        List.length_cons]
      rfl
  have hmain : summarizeGroup data [("group", ConfigVal.name gname), (s, ConfigVal.wells W)]
      = Except.ok [(gname ++ "__" ++ s,
          (List.range (shape0 data)).map (fun t =>
            some ((W.map (fun x => (vals x).getD t 0)).sum / W.length)))] := by
    simp +decide only [summarizeGroup, dictGet?, assocFind?, realSamples, colNames, pyStrVal,
      hs1, hs2, Option.map, List.map, if_true, if_false, ite_true, ite_false, false_or, or_false]
    rw [hmean, subSeries_map_zero]
  simp only [summarize, timepointsResult, hconv, exceptMapM, hmain, List.flatten,
    List.append_nil, List.cons_append, List.nil_append]

/-- Witness for C4: a group with a single sample backed by wells 1 and 2
reading 4 and 6 at the single timepoint; the summarized value is the raw
mean 5, unaltered. -/
theorem no_blank_raw_mean_witness :
    summarize [[("group", ConfigVal.name "G"), ("x", ConfigVal.wells [1, 2])]]
        ⟨["00:00:00"], [("1", [4]), ("2", [6])]⟩ (TimepointsArg.str "hours")
      = Except.ok [("Time", List.map some [0]),
                   ("G" ++ "__" ++ "x",
                    (List.range (shape0 ⟨["00:00:00"], [("1", [4]), ("2", [6])]⟩)).map (fun t =>
                      some ((([1, 2] : List ℤ).map
                          (fun x => ((fun y => if y = 1 then ([4] : List ℚ) else [6]) x).getD t 0)).sum
                        / ([1, 2] : List ℤ).length)))] := by
  have h := no_blank_raw_mean "G" "x" [1, 2]
    ⟨["00:00:00"], [("1", [4]), ("2", [6])]⟩ "hours" [0]
    (fun y => if y = 1 then [4] else [6])
    (by decide) (by decide) (by decide)
    (by decide)
    (by simp +decide only [convert_timepoints, pyLower, pySplitCh, parseIntList, exceptMapM,
          pyIntChars?, convert_tm, timepoints_possible, timeFormatErrMsg]
        norm_num [digitsVal, dvc0])
  exact h

/-! ### C2: auto-assigned well blocks -/

theorem assocFind?_eq_none {α : Type} (k : String) (d : List (String × α))
    (h : ∀ q ∈ d, q.1 ≠ k) : assocFind? k d = none := by
  induction d with
  | nil => rfl
  | cons p rest ih =>
    simp only [assocFind?, if_neg (h p (List.mem_cons_self p rest))]
    exact ih (fun q hq => h q (List.mem_cons_of_mem p hq))

theorem foldl_dictInsert_fresh (ps : List (String × List ℤ)) (d : GroupDict)
    (hnd : (ps.map Prod.fst).Nodup)
    (hfresh : ∀ k ∈ ps.map Prod.fst, ∀ q ∈ d, q.1 ≠ k) :
    ps.foldl (fun d p => dictInsert d p.1 (ConfigVal.wells p.2)) d
      = d ++ ps.map (fun p => (p.1, ConfigVal.wells p.2)) := by
  induction ps generalizing d with
  | nil => simp
  | cons p rest ih =>
    have hnd' : (p.1 :: rest.map Prod.fst).Nodup := by rw [List.map_cons] at hnd; exact hnd
    have hnd1 : p.1 ∉ rest.map Prod.fst := (List.nodup_cons.mp hnd').1
    have hnd2 : (rest.map Prod.fst).Nodup := (List.nodup_cons.mp hnd').2
    simp only [List.foldl_cons, List.map_cons]
    have hnone : assocFind? p.1 d = none :=
      assocFind?_eq_none p.1 d (fun q hq => hfresh p.1 (by simp) q hq)
    rw [show dictInsert d p.1 (ConfigVal.wells p.2) = d ++ [(p.1, ConfigVal.wells p.2)] by
      simp [dictInsert, hnone]]
    have hfresh2 : ∀ k ∈ rest.map Prod.fst, ∀ q ∈ d ++ [(p.1, ConfigVal.wells p.2)], q.1 ≠ k := by
      intro k hk q hq
      rcases List.mem_append.mp hq with hq1 | hq2
      · exact hfresh k (by simp [hk]) q hq1
      · have hq2' : q = (p.1, ConfigVal.wells p.2) := by simpa using hq2
        rw [hq2']
        intro heq
        exact hnd1 (heq ▸ hk)
    rw [ih (d ++ [(p.1, ConfigVal.wells p.2)]) hnd2 hfresh2]
    simp

theorem zip_eq_range_map (a : List String) (b : List (List ℤ)) (h : a.length ≤ b.length) :
    a.zip b = (List.range a.length).map (fun j => (a.getD j "", b.getD j [])) := by
  induction a generalizing b with
  | nil => simp
  | cons x xs ih =>
    cases b with
    | nil => simp at h
    | cons y ys =>
      simp only [List.zip_cons_cons, List.length_cons, List.range_succ_eq_map, List.map_cons,
        List.map_map, List.getD_cons_zero]
      rw [ih ys (by simpa using h)]
      simp [Function.comp]

theorem buildGroupDict_eq (g : String) (sl : List String) (ws : List (List ℤ))
    (hnd : sl.Nodup) (hg : "group" ∉ sl) (hlen : sl.length ≤ ws.length) :
    buildGroupDict g sl ws
      = ("group", ConfigVal.name g)
        :: (List.range sl.length).map (fun j =>
             (sl.getD j "", ConfigVal.wells (ws.getD j []))) := by
  unfold buildGroupDict
  rw [foldl_dictInsert_fresh (sl.zip ws) [("group", ConfigVal.name g)]
    (by rw [List.map_fst_zip sl ws hlen]; exact hnd)
    (by rw [List.map_fst_zip sl ws hlen]
        intro k hk q hq
        have hq' : q = ("group", ConfigVal.name g) := by simpa using hq
        rw [hq']
        intro hcontra
        have hgk : "group" = k := hcontra
        exact hg (hgk.symm ▸ hk))]
  rw [zip_eq_range_map sl ws hlen, List.map_map]
  rfl

theorem getD_take {α : Type} (l : List α) (m j : ℕ) (d : α) (h : j < m) :
    (l.take m).getD j d = l.getD j d := by
  rw [List.getD_eq_getElem?_getD, List.getD_eq_getElem?_getD, List.getElem?_take, if_pos h]

theorem getD_drop {α : Type} (l : List α) (m j : ℕ) (d : α) :
    (l.drop m).getD j d = l.getD (m + j) d := by
  rw [List.getD_eq_getElem?_getD, List.getD_eq_getElem?_getD, List.getElem?_drop]

theorem buildConfig_flat (groups : List String) (samples : List String) (ws : List (List ℤ))
    (hnd : samples.Nodup) (hg : "group" ∉ samples)
    (hlen : ws.length = groups.length * samples.length) :
    buildConfig groups (List.replicate groups.length samples) ws
      = (List.range groups.length).map (fun i =>
          ("group", ConfigVal.name (groups.getD i ""))
            :: (List.range samples.length).map (fun j =>
                 (samples.getD j "", ConfigVal.wells (ws.getD (i * samples.length + j) [])))) := by
  induction groups generalizing ws with
  | nil => simp [buildConfig]
  | cons g gs ih =>
    simp only [List.length_cons, List.replicate_succ, buildConfig]
    have hS : samples.length ≤ ws.length := by
      rw [hlen, List.length_cons, Nat.succ_mul]
      exact Nat.le_add_left _ _
    rw [buildGroupDict_eq g samples (ws.take samples.length) hnd hg
      (by rw [List.length_take]; exact le_min (le_refl _) hS)]
    rw [ih (ws.drop samples.length)
      (by rw [List.length_drop, hlen, List.length_cons, Nat.succ_mul]
          exact Nat.add_sub_cancel _ _)]
    rw [List.range_succ_eq_map, List.map_cons, List.map_map]
    congr 1
    · simp only [List.getD_cons_zero, Nat.zero_mul, Nat.zero_add]
      congr 1
      apply List.map_congr_left
      intro j hj
      rw [getD_take _ _ _ _ (List.mem_range.mp hj)]
    · apply List.map_congr_left
      intro i _
      simp only [Function.comp, List.getD_cons_succ, Nat.succ_eq_add_one]
      congr 1
      apply List.map_congr_left
      intro j _
      rw [getD_drop]
      congr 2
      ring_nf

theorem autoWells_getD (num r t : ℕ) (h : t < num) :
    (autoWells num r).getD t [] = (List.range' (t * r + 1) r).map Int.ofNat := by
  unfold autoWells
  rw [List.getD_eq_getElem?_getD, List.getElem?_map, List.getElem?_range h]
  rfl

theorem autoWells_flatten (num r : ℕ) :
    (autoWells num r).flatten = (List.range' 1 (num * r)).map Int.ofNat := by
  induction num with
  | zero => simp [autoWells]
  | succ n ih =>
    unfold autoWells at ih ⊢
    rw [List.range_succ, List.map_append, List.flatten_append]
    rw [ih]
    simp only [List.map_cons, List.map_nil, List.flatten_cons, List.flatten_nil,
      List.append_nil]
    rw [← List.map_append]
    have h := List.range'_append 1 (n * r) r 1
    simp only [one_mul] at h
    rw [show n * r + 1 = 1 + n * r by omega, show (n + 1) * r = r + n * r by ring, ← h]

theorem flatMap_range_mul (G S : ℕ) (f : ℕ → List ℤ) :
    ((List.range G).flatMap (fun i => (List.range S).map (fun j => f (i * S + j))))
      = (List.range (G * S)).map f := by
  induction G with
  | zero => simp
  | succ n ih =>
    rw [List.range_succ, List.flatMap_append, ih]
    simp only [List.flatMap_cons, List.flatMap_nil, List.append_nil]
    rw [show (n + 1) * S = n * S + S by ring, List.range_add, List.map_append, List.map_map]
    congr 1

theorem slotWellLists_char (G S r : ℕ) (gname : ℕ → String) (sname : ℕ → String) :
    slotWellLists ((List.range G).map (fun i =>
        ("group", ConfigVal.name (gname i))
          :: (List.range S).map (fun j =>
               (sname j, ConfigVal.wells ((List.range' ((i * S + j) * r + 1) r).map Int.ofNat)))))
      = (List.range (G * S)).map (fun t => (List.range' (t * r + 1) r).map Int.ofNat) := by
  unfold slotWellLists
  rw [List.flatMap_map]
  rw [show (fun i => (((("group", ConfigVal.name (gname i))
        :: (List.range S).map (fun j =>
             (sname j, ConfigVal.wells
               ((List.range' ((i * S + j) * r + 1) r).map Int.ofNat)))) : GroupDict).filterMap
          (fun p => match p.2 with
            | ConfigVal.wells ws => some ws
            | ConfigVal.name _ => none)))
      = (fun i => (List.range S).map (fun j =>
          (List.range' ((i * S + j) * r + 1) r).map Int.ofNat)) from ?_]
  · exact flatMap_range_mul G S (fun t => (List.range' (t * r + 1) r).map Int.ofNat)
  · funext i
    rw [List.filterMap_cons]
    simp only []
    rw [List.filterMap_map]
    exact filterMap_eq_map_of (List.range S) _ _ (fun j _ => rfl)

/-- C2: with a flat sample list broadcast to every group and no explicit
wells, `set_config` assigns slot `i*S + j` (group-major, then sample-major)
the contiguous block of `replicates` wells starting at `slot*replicates + 1`,
and the stored well lists together are exactly `1, 2, ..., G*S*replicates` in
slot order: a partition with no gaps or overlaps. -/
theorem set_config_auto_partition (groups samples : List String) (r : ℕ)
    (hne : samples ≠ []) (hr : 1 ≤ r) (hnd : samples.Nodup) (hg : "group" ∉ samples) :
    ∃ cfg, set_config groups (SamplesArg.flat samples) r none = Except.ok (cfg, groups)
      ∧ cfg = (List.range groups.length).map (fun i =>
          ("group", ConfigVal.name (groups.getD i ""))
            :: (List.range samples.length).map (fun j =>
                 (samples.getD j "", ConfigVal.wells
                   ((List.range' ((i * samples.length + j) * r + 1) r).map Int.ofNat))))
      ∧ wellsFlat cfg
          = (List.range' 1 (groups.length * samples.length * r)).map Int.ofNat := by
  obtain ⟨s0, ss, rfl⟩ := List.exists_cons_of_ne_nil hne
  have hr0 : r ≠ 0 := by omega
  have hcount : countSlots (List.replicate groups.length (s0 :: ss))
      = groups.length * (s0 :: ss).length := by
    simp [countSlots, List.map_replicate, List.sum_replicate, smul_eq_mul, Nat.mul_comm]
  have hchar : buildConfig groups (List.replicate groups.length (s0 :: ss))
        (autoWells (groups.length * (s0 :: ss).length) r)
      = (List.range groups.length).map (fun i =>
          ("group", ConfigVal.name (groups.getD i ""))
            :: (List.range (s0 :: ss).length).map (fun j =>
                 ((s0 :: ss).getD j "", ConfigVal.wells
                   ((List.range' ((i * (s0 :: ss).length + j) * r + 1) r).map Int.ofNat)))) := by
    rw [buildConfig_flat groups (s0 :: ss) _ hnd hg (by simp [autoWells])]
    apply List.map_congr_left
    intro i hi
    congr 1
    apply List.map_congr_left
    intro j hj
    rw [autoWells_getD]
    have hiG := List.mem_range.mp hi
    have hjS := List.mem_range.mp hj
    calc i * (s0 :: ss).length + j < (i + 1) * (s0 :: ss).length := by
          rw [Nat.add_mul, one_mul]
          omega
      _ ≤ groups.length * (s0 :: ss).length :=
          Nat.mul_le_mul_right _ (by omega)
  refine ⟨_, ?_, hchar, ?_⟩
  · simp only [set_config, set_config_go, hcount]
    rw [if_neg (by simp), if_neg hr0]
  · rw [hchar]
    unfold wellsFlat
    rw [slotWellLists_char groups.length (s0 :: ss).length r
      (fun i => groups.getD i "") (fun j => (s0 :: ss).getD j "")]
    have h := autoWells_flatten (groups.length * (s0 :: ss).length) r
    unfold autoWells at h
    exact h

/-- Witness for C2 at the spec's example
`BuildFromTemplate(['A','B'], ['blank','X'], replicates=2)`. -/
theorem set_config_auto_partition_witness :
    ∃ cfg, set_config ["A", "B"] (SamplesArg.flat ["blank", "X"]) 2 none
        = Except.ok (cfg, ["A", "B"])
      ∧ cfg = (List.range (["A", "B"] : List String).length).map (fun i =>
          ("group", ConfigVal.name ((["A", "B"] : List String).getD i ""))
            :: (List.range (["blank", "X"] : List String).length).map (fun j =>
                 ((["blank", "X"] : List String).getD j "", ConfigVal.wells
                   ((List.range' ((i * (["blank", "X"] : List String).length + j) * 2 + 1) 2).map
                     Int.ofNat))))
      ∧ wellsFlat cfg
          = (List.range' 1
              ((["A", "B"] : List String).length * (["blank", "X"] : List String).length * 2)).map
              Int.ofNat :=
  set_config_auto_partition ["A", "B"] ["blank", "X"] 2
    (by decide) (by decide) (by decide) (by decide)

/-! ### C6 (continued): the amended duplicate-group behaviour -/

theorem range_map_getD {α β : Type} (l : List α) (d : α) (f : α → β) :
    (List.range l.length).map (fun i => f (l.getD i d)) = l.map f := by
  induction l with
  | nil => rfl
  | cons a t ih =>
    rw [List.length_cons, List.range_succ_eq_map, List.map_cons, List.map_map]
    congr 1

theorem map_dictGet_group (G : ℕ) (gname : ℕ → String) (rest : ℕ → GroupDict) :
    ((List.range G).map (fun i => ("group", ConfigVal.name (gname i)) :: rest i)).map
        (fun gd => dictGet? gd "group")
      = (List.range G).map (fun i => some (ConfigVal.name (gname i))) := by
  rw [List.map_map]
  apply List.map_congr_left
  intro i _
  simp [Function.comp, dictGet?, assocFind?]

/-- C6 amended: neither builder rejects duplicate group names.
(i) `set_config` performs no duplicate-group check: for every group list —
duplicates included — with a valid flat sample list and `replicates ≥ 1`, it
succeeds and returns exactly one configuration entry per supplied group name,
in order, each entry's `"group"` key holding that (possibly repeated) name.
(ii) `set_config_from_file` raises no duplicate-group error either: two
configuration-file lines sharing a group token are silently merged into a
single configuration entry holding both lines' samples. -/
theorem set_config_duplicate_groups_amended :
    (∀ (groups samples : List String) (r : ℕ),
      samples ≠ [] → 1 ≤ r → samples.Nodup → "group" ∉ samples →
      ∃ cfg, set_config groups (SamplesArg.flat samples) r none = Except.ok (cfg, groups)
        ∧ cfg.length = groups.length
        ∧ cfg.map (fun gd => dictGet? gd "group")
            = groups.map (fun g => some (ConfigVal.name g)))
    ∧ (∀ gtok s1tok s2tok : List Char,
        startsHash gtok = false → '\t' ∉ gtok → '\t' ∉ s1tok → '\t' ∉ s2tok →
        rename_strict (String.mk s1tok) ≠ "group" →
        rename_strict (String.mk s2tok) ≠ "group" →
        rename_strict (String.mk s1tok) ≠ rename_strict (String.mk s2tok) →
        set_config_from_file
          [String.mk (gtok ++ '\t' :: (s1tok ++ '\t' :: ['1', ',', '2'])),
           String.mk (gtok ++ '\t' :: (s2tok ++ '\t' :: ['3', ',', '4']))]
          = Except.ok
              ([[("group", ConfigVal.name
                    (if pyLower (rename_strict (String.mk gtok)) = "blank" then "blank"
                     else rename_strict (String.mk gtok))),
                 (rename_strict (String.mk s1tok), ConfigVal.wells [1, 2]),
                 (rename_strict (String.mk s2tok), ConfigVal.wells [3, 4])]],
               [if pyLower (rename_strict (String.mk gtok)) = "blank" then "blank"
                else rename_strict (String.mk gtok)])) := by
  constructor
  · intro groups samples r hne hr hnd hg
    obtain ⟨s0, ss, rfl⟩ := List.exists_cons_of_ne_nil hne
    have hr0 : r ≠ 0 := by omega
    have hcount : countSlots (List.replicate groups.length (s0 :: ss))
        = groups.length * (s0 :: ss).length := by
      simp [countSlots, List.map_replicate, List.sum_replicate, smul_eq_mul, Nat.mul_comm]
    refine ⟨buildConfig groups (List.replicate groups.length (s0 :: ss))
      (autoWells (groups.length * (s0 :: ss).length) r), ?_, ?_, ?_⟩
    · simp only [set_config, set_config_go, hcount]
      rw [if_neg (by simp), if_neg hr0]
    · rw [buildConfig_flat groups (s0 :: ss) _ hnd hg (by simp [autoWells])]
      simp
    · rw [buildConfig_flat groups (s0 :: ss) _ hnd hg (by simp [autoWells]),
        map_dictGet_group]
      exact range_map_getD groups "" (fun g => some (ConfigVal.name g))
  · intro gtok s1tok s2tok hgh hg htab1 htab2 hs1g hs2g h12
    have hs1g2 : ("group" : String) ≠ rename_strict (String.mk s1tok) := Ne.symm hs1g
    have hs2g2 : ("group" : String) ≠ rename_strict (String.mk s2tok) := Ne.symm hs2g
    have hassoc1 : gtok ++ '\t' :: (s1tok ++ '\t' :: ['1', ',', '2'])
        = (gtok ++ '\t' :: (s1tok ++ '\t' :: ['1', ','])) ++ ['2'] := by simp
    have hassoc2 : gtok ++ '\t' :: (s2tok ++ '\t' :: ['3', ',', '4'])
        = (gtok ++ '\t' :: (s2tok ++ '\t' :: ['3', ','])) ++ ['4'] := by simp
    have hr1 : pyRstrip (gtok ++ '\t' :: (s1tok ++ '\t' :: ['1', ',', '2']))
        = gtok ++ '\t' :: (s1tok ++ '\t' :: ['1', ',', '2']) := by
      apply pyRstrip_eq_self
      intro c hc
      rw [hassoc1, List.getLast?_concat] at hc
      cases hc
      decide
    have hr2 : pyRstrip (gtok ++ '\t' :: (s2tok ++ '\t' :: ['3', ',', '4']))
        = gtok ++ '\t' :: (s2tok ++ '\t' :: ['3', ',', '4']) := by
      apply pyRstrip_eq_self
      intro c hc
      rw [hassoc2, List.getLast?_concat] at hc
      cases hc
      decide
    have hsplit1 : pySplitCh '\t' (gtok ++ '\t' :: (s1tok ++ '\t' :: ['1', ',', '2']))
        = [gtok, s1tok, ['1', ',', '2']] := by
      rw [pySplitCh_append_sep '\t' gtok _ hg, pySplitCh_append_sep '\t' s1tok _ htab1,
        pySplitCh_no_sep '\t' ['1', ',', '2'] (by decide)]
    have hsplit2 : pySplitCh '\t' (gtok ++ '\t' :: (s2tok ++ '\t' :: ['3', ',', '4']))
        = [gtok, s2tok, ['3', ',', '4']] := by
      rw [pySplitCh_append_sep '\t' gtok _ hg, pySplitCh_append_sep '\t' s2tok _ htab2,
        pySplitCh_no_sep '\t' ['3', ',', '4'] (by decide)]
    have hstart1 : startsHash (gtok ++ '\t' :: (s1tok ++ '\t' :: ['1', ',', '2'])) = false := by
      cases gtok with
      | nil => simp [startsHash]
      | cons c t =>
        rw [List.cons_append]
        simpa [startsHash] using hgh
    have hstart2 : startsHash (gtok ++ '\t' :: (s2tok ++ '\t' :: ['3', ',', '4'])) = false := by
      cases gtok with
      | nil => simp [startsHash]
      | cons c t =>
        rw [List.cons_append]
        simpa [startsHash] using hgh
    have hwells1 : parseWellsField ['1', ',', '2'] none = Except.ok (some [1, 2]) := by decide
    have hwells2 : parseWellsField ['3', ',', '4'] (some [1, 2]) = Except.ok (some [3, 4]) := by
      decide
    have hdata : ∀ l : List Char, (String.mk l).data = l := fun _ => rfl
    simp only [set_config_from_file, exceptFoldl, parseLine, hdata, hstart1, hstart2, hr1, hr2,
      hsplit1, hsplit2, hwells1, hwells2, Bool.false_eq_true, if_false, List.getD,
      List.getElem?_cons_zero, List.getElem?_cons_succ, Option.getD, List.length, Nat.lt_irrefl]
    simp +decide [hwells1, hwells2, assocFind?, dictInsert, innerInsert, hs1g2, hs2g2, h12]

/-- Witness for C6's amended theorem: part (i) at the duplicated group list
`['A', 'A']`, part (ii) at the file lines `"G\ta\t1,2"` and `"G\tb\t3,4"`,
which share the group token `"G"`. -/
theorem set_config_duplicate_groups_amended_witness :
    (∃ cfg, set_config ["A", "A"] (SamplesArg.flat ["x"]) 1 none = Except.ok (cfg, ["A", "A"])
      ∧ cfg.length = (["A", "A"] : List String).length
      ∧ cfg.map (fun gd => dictGet? gd "group")
          = (["A", "A"] : List String).map (fun g => some (ConfigVal.name g)))
    ∧ set_config_from_file
        [String.mk ("G".data ++ '\t' :: ("a".data ++ '\t' :: ['1', ',', '2'])),
         String.mk ("G".data ++ '\t' :: ("b".data ++ '\t' :: ['3', ',', '4']))]
        = Except.ok
            ([[("group", ConfigVal.name
                  (if pyLower (rename_strict (String.mk "G".data)) = "blank" then "blank"
                   else rename_strict (String.mk "G".data))),
               (rename_strict (String.mk "a".data), ConfigVal.wells [1, 2]),
               (rename_strict (String.mk "b".data), ConfigVal.wells [3, 4])]],
             [if pyLower (rename_strict (String.mk "G".data)) = "blank" then "blank"
              else rename_strict (String.mk "G".data)]) :=
  ⟨set_config_duplicate_groups_amended.1 ["A", "A"] ["x"] 1
     (by decide) (by decide) (by decide) (by decide),
   set_config_duplicate_groups_amended.2 "G".data "a".data "b".data
     (by decide) (by decide) (by decide) (by decide) (by decide) (by decide) (by decide)⟩

/-! ### C8: idempotence of `rename_strict` -/

theorem allowed_not_ws (c : Char) (h : isAllowedChar c = true) :
    Char.isWhitespace c = false := by
  by_contra hcon
  have hw : Char.isWhitespace c = true := by
    cases hws : Char.isWhitespace c
    · exact absurd hws hcon
    · rfl
  simp [Char.isWhitespace] at hw
  rcases hw with ((h1 | h1) | h1) | h1 <;> (subst h1; exact absurd h (by decide))

theorem dropWhile_all_false {α : Type} (p : α → Bool) (l : List α)
    (h : ∀ c ∈ l, p c = false) : l.dropWhile p = l := by
  cases l with
  | nil => rfl
  | cons a t => simp [List.dropWhile_cons, h a (List.mem_cons_self a t)]

theorem dropWhile_head_prop {α : Type} (p : α → Bool) (l : List α) :
    ∀ c, (l.dropWhile p).head? = some c → p c = false := by
  induction l with
  | nil => intro c hc; simp at hc
  | cons a t ih =>
    intro c hc
    rw [List.dropWhile_cons] at hc
    by_cases hpa : p a
    · rw [if_pos hpa] at hc
      exact ih c hc
    · rw [if_neg hpa] at hc
      cases hc
      exact Bool.eq_false_iff.mpr hpa

theorem getLast?_cons_ne {α : Type} (a : α) (l : List α) (h : l ≠ []) :
    (a :: l).getLast? = l.getLast? := by
  cases l with
  | nil => exact absurd rfl h
  | cons b t => exact List.getLast?_cons_cons

theorem dropWhile_getLast?_or {α : Type} (p : α → Bool) (l : List α) :
    l.dropWhile p = [] ∨ (l.dropWhile p).getLast? = l.getLast? := by
  induction l with
  | nil => exact Or.inl rfl
  | cons a t ih =>
    rw [List.dropWhile_cons]
    by_cases hpa : p a
    · rw [if_pos hpa]
      by_cases hdpt : t.dropWhile p = []
      · exact Or.inl hdpt
      · right
        have ht : t ≠ [] := fun hteq => hdpt (by rw [hteq]; rfl)
        rcases ih with h1 | h1
        · exact absurd h1 hdpt
        · rw [h1, getLast?_cons_ne a t ht]
    · rw [if_neg hpa]
      exact Or.inr rfl

theorem sub2chars_le : ∀ l : List Char, (sub2chars l).length ≤ l.length
  | [] => le_refl _
  | [c] => le_refl _
  | c :: d :: rest => by
      by_cases hcd : c = '_' ∧ d = '_'
      · simp only [sub2chars, if_pos hcd, List.length_cons]
        have := sub2chars_le rest
        omega
      · simp only [sub2chars, if_neg hcd, List.length_cons]
        have := sub2chars_le (d :: rest)
        simp only [List.length_cons] at this
        omega

theorem sub2chars_length : ∀ l : List Char, hasDU l = true → (sub2chars l).length < l.length
  | [] => by simp [hasDU]
  | [c] => by simp [hasDU]
  | c :: d :: rest => fun h => by
      by_cases hcd : c = '_' ∧ d = '_'
      · simp only [sub2chars, if_pos hcd, List.length_cons]
        have := sub2chars_le rest
        omega
      · simp only [sub2chars, if_neg hcd, List.length_cons]
        have h' : hasDU (d :: rest) = true := by
          simp only [hasDU, Bool.or_eq_true, Bool.and_eq_true, decide_eq_true_eq] at h
          rcases h with h1 | h1
          · exact absurd h1 hcd
          · exact h1
        have := sub2chars_length (d :: rest) h'
        simp only [List.length_cons] at this
        omega

theorem sub2chars_ne_nil : ∀ l : List Char, l ≠ [] → sub2chars l ≠ []
  | [], h => absurd rfl h
  | [c], _ => by simp [sub2chars]
  | c :: d :: rest, _ => by
      by_cases hcd : c = '_' ∧ d = '_' <;> simp [sub2chars, hcd]

theorem sub2chars_head (l : List Char) (h : ∀ x, l.head? = some x → x ≠ '_') :
    (sub2chars l).head? = l.head? := by
  match l with
  | [] => rfl
  | [c] => rfl
  | c :: d :: rest =>
    have hc : c ≠ '_' := h c rfl
    simp only [sub2chars, if_neg (fun hcd : c = '_' ∧ d = '_' => hc hcd.1)]
    rfl

theorem sub2chars_getLast : ∀ l : List Char, (∀ x, l.getLast? = some x → x ≠ '_') →
    (sub2chars l).getLast? = l.getLast?
  | [], _ => rfl
  | [c], _ => rfl
  | c :: d :: rest, h => by
      by_cases hcd : c = '_' ∧ d = '_'
      · cases rest with
        | nil =>
          exfalso
          obtain ⟨rfl, rfl⟩ := hcd
          exact h '_' (by rfl) rfl
        | cons e rest2 =>
          rw [show sub2chars (c :: d :: e :: rest2) = '_' :: sub2chars (e :: rest2) from by
            simp [sub2chars, hcd]]
          rw [getLast?_cons_ne _ _ (sub2chars_ne_nil (e :: rest2) (by simp))]
          rw [sub2chars_getLast (e :: rest2)
            (fun x hx => h x (by rw [List.getLast?_cons_cons, List.getLast?_cons_cons]; exact hx))]
          rw [List.getLast?_cons_cons, List.getLast?_cons_cons]
      · rw [show sub2chars (c :: d :: rest) = c :: sub2chars (d :: rest) from by
          simp [sub2chars, hcd]]
        rw [getLast?_cons_ne _ _ (sub2chars_ne_nil (d :: rest) (by simp))]
        rw [sub2chars_getLast (d :: rest)
          (fun x hx => h x (by rw [List.getLast?_cons_cons]; exact hx))]
        rw [List.getLast?_cons_cons]

theorem sub2chars_allowed : ∀ l : List Char, (∀ c ∈ l, isAllowedChar c = true) →
    ∀ c ∈ sub2chars l, isAllowedChar c = true
  | [], _ => by simp [sub2chars]
  | [c], h => by simpa [sub2chars] using h
  | c :: d :: rest, h => by
      by_cases hcd : c = '_' ∧ d = '_'
      · rw [show sub2chars (c :: d :: rest) = '_' :: sub2chars rest from by simp [sub2chars, hcd]]
        intro e he
        rcases List.mem_cons.mp he with rfl | he2
        · decide
        · exact sub2chars_allowed rest
            (fun a ha => h a (List.mem_cons_of_mem c (List.mem_cons_of_mem d ha))) e he2
      · rw [show sub2chars (c :: d :: rest) = c :: sub2chars (d :: rest) from by
          simp [sub2chars, hcd]]
        intro e he
        rcases List.mem_cons.mp he with rfl | he2
        · exact h e (List.mem_cons_self e _)
        · exact sub2chars_allowed (d :: rest)
            (fun a ha => h a (List.mem_cons_of_mem c ha)) e he2

theorem rmUndFuel_noDU : ∀ (fuel : ℕ) (l : List Char), l.length ≤ fuel →
    hasDU (rmUndFuel fuel l) = false
  | 0, l, h => by
      have hl : l = [] := List.eq_nil_of_length_eq_zero (Nat.le_zero.mp h)
      subst hl
      rfl
  | fuel + 1, l, h => by
      by_cases hdu : hasDU l = true
      · rw [rmUndFuel, if_pos hdu]
        exact rmUndFuel_noDU fuel (sub2chars l)
          (by have := sub2chars_length l hdu; omega)
      · rw [rmUndFuel, if_neg hdu]
        exact Bool.eq_false_iff.mpr hdu

theorem rmUndFuel_allowed : ∀ (fuel : ℕ) (l : List Char),
    (∀ c ∈ l, isAllowedChar c = true) → ∀ c ∈ rmUndFuel fuel l, isAllowedChar c = true
  | 0, _, h => h
  | fuel + 1, l, h => by
      by_cases hdu : hasDU l = true
      · rw [rmUndFuel, if_pos hdu]
        exact rmUndFuel_allowed fuel (sub2chars l) (sub2chars_allowed l h)
      · rw [rmUndFuel, if_neg hdu]
        exact h

theorem rmUndFuel_edges : ∀ (fuel : ℕ) (l : List Char),
    (∀ x, l.head? = some x → x ≠ '_') → (∀ x, l.getLast? = some x → x ≠ '_') →
    (∀ x, (rmUndFuel fuel l).head? = some x → x ≠ '_')
      ∧ (∀ x, (rmUndFuel fuel l).getLast? = some x → x ≠ '_')
  | 0, _, hh, hl => ⟨hh, hl⟩
  | fuel + 1, l, hh, hl => by
      by_cases hdu : hasDU l = true
      · rw [rmUndFuel, if_pos hdu]
        exact rmUndFuel_edges fuel (sub2chars l)
          (fun x hx => hh x (by rwa [sub2chars_head l hh] at hx))
          (fun x hx => hl x (by rwa [sub2chars_getLast l hl] at hx))
      · rw [rmUndFuel, if_neg hdu]
        exact ⟨hh, hl⟩

theorem rmUndFuel_eq_self (fuel : ℕ) (l : List Char) (h : hasDU l = false) :
    rmUndFuel fuel l = l := by
  cases fuel with
  | zero => rfl
  | succ f => rw [rmUndFuel, if_neg (by rw [h]; exact Bool.false_ne_true)]

theorem mem_pyStripChar (x : Char) (l : List Char) (c : Char) (h : c ∈ pyStripChar x l) :
    c ∈ l := by
  unfold pyStripChar at h
  have h1 := List.mem_reverse.mp h
  have h2 := (List.dropWhile_sublist _).subset h1
  have h3 := List.mem_reverse.mp h2
  exact (List.dropWhile_sublist _).subset h3

theorem scrub_allowed (l : List Char) : ∀ c ∈ scrub l, isAllowedChar c = true := by
  intro c hc
  obtain ⟨a, _, rfl⟩ := List.mem_map.mp hc
  by_cases h : isAllowedChar a = true
  · rwa [if_pos h]
  · rw [if_neg h]
    decide

theorem pyStripWs_eq_self (l : List Char) (h : ∀ c ∈ l, Char.isWhitespace c = false) :
    pyStripWs l = l := by
  unfold pyStripWs
  rw [dropWhile_all_false _ _ h,
    dropWhile_all_false _ _ (fun c hc => h c (List.mem_reverse.mp hc)),
    List.reverse_reverse]

theorem scrub_eq_self (l : List Char) (h : ∀ c ∈ l, isAllowedChar c = true) :
    scrub l = l := by
  unfold scrub
  have heq : ∀ c ∈ l, (if isAllowedChar c then c else '_') = id c :=
    fun c hc => by simp [h c hc]
  rw [List.map_congr_left heq, List.map_id]

theorem pyStripChar_eq_self (x : Char) (l : List Char)
    (hh : ∀ c, l.head? = some c → c ≠ x) (hl : ∀ c, l.getLast? = some c → c ≠ x) :
    pyStripChar x l = l := by
  unfold pyStripChar
  rw [dropWhile_head_false l (fun c hc => decide_eq_false (hh c hc)),
    dropWhile_head_false l.reverse (fun c hc =>
      decide_eq_false (hl c (by rwa [List.head?_reverse] at hc))),
    List.reverse_reverse]

theorem pyStripChar_edges (x : Char) (l : List Char) :
    (∀ c, (pyStripChar x l).head? = some c → c ≠ x)
      ∧ (∀ c, (pyStripChar x l).getLast? = some c → c ≠ x) := by
  unfold pyStripChar
  constructor
  · intro c hc
    rw [List.head?_reverse] at hc
    rcases dropWhile_getLast?_or (fun c => decide (c = x)) (l.dropWhile (fun c => decide (c = x))).reverse
      with hemp | heq
    · rw [hemp] at hc
      simp at hc
    · rw [heq, List.getLast?_reverse] at hc
      exact of_decide_eq_false (dropWhile_head_prop _ l c hc)
  · intro c hc
    rw [List.getLast?_reverse] at hc
    exact of_decide_eq_false (dropWhile_head_prop _ _ c hc)

/-- C8: `rename_strict` (the sanitizer: replace characters outside
`[A-Za-z0-9_\-./]` by `'_'`, trim edge underscores, collapse underscore runs)
is idempotent. -/
theorem rename_strict_idempotent (x : String) :
    rename_strict (rename_strict x) = rename_strict x := by
  have hmidedges := pyStripChar_edges '_' (scrub (pyStripWs x.data))
  have hout :
      rename_strict x = String.mk (rmUndFuel
        (pyStripChar '_' (scrub (pyStripWs x.data))).length
        (pyStripChar '_' (scrub (pyStripWs x.data)))) := rfl
  set mid := pyStripChar '_' (scrub (pyStripWs x.data)) with hmid
  set out := rmUndFuel mid.length mid with houtdef
  have hall : ∀ c ∈ out, isAllowedChar c = true :=
    rmUndFuel_allowed mid.length mid
      (fun c hc => scrub_allowed (pyStripWs x.data) c (mem_pyStripChar '_' _ c hc))
  have hedges := rmUndFuel_edges mid.length mid hmidedges.1 hmidedges.2
  have hnodu : hasDU out = false := rmUndFuel_noDU mid.length mid (le_refl _)
  calc rename_strict (rename_strict x)
      = rename_strict (String.mk out) := by rw [hout]
    _ = String.mk (rmUnd (pyStripChar '_' (scrub (pyStripWs out)))) := rfl
    _ = String.mk out := by
        rw [pyStripWs_eq_self out (fun c hc => allowed_not_ws c (hall c hc)),
          scrub_eq_self out hall,
          pyStripChar_eq_self '_' out hedges.1 hedges.2]
        unfold rmUnd
        rw [rmUndFuel_eq_self out.length out hnodu]
    _ = rename_strict x := hout.symm

/-! ### C7: summary round-trip -/

theorem takeBeforeDU_append : ∀ (g : List Char), hasDU g = false →
    (∀ x, g.getLast? = some x → x ≠ '_') →
    ∀ s : List Char, takeBeforeDU (g ++ '_' :: '_' :: s) = g
  | [], _, _, s => by simp [takeBeforeDU]
  | [c], _, hl, s => by
      have hc : c ≠ '_' := hl c rfl
      simp +decide only [List.cons_append, List.nil_append, takeBeforeDU, hc,
        if_true, if_false, ite_true, ite_false]
  | c :: d :: g', hdu, hl, s => by
      simp only [hasDU, Bool.or_eq_false_iff, Bool.and_eq_false_iff] at hdu
      have hnotpair : ¬(c = '_' ∧ d = '_') := by
        intro hcd
        rcases hdu.1 with h1 | h1
        · exact absurd (decide_eq_true hcd.1) (by rw [h1]; exact Bool.false_ne_true)
        · exact absurd (decide_eq_true hcd.2) (by rw [h1]; exact Bool.false_ne_true)
      simp only [List.cons_append, takeBeforeDU, if_neg hnotpair, List.append_eq]
      rw [show d :: (g' ++ '_' :: '_' :: s) = (d :: g') ++ '_' :: '_' :: s from rfl]
      rw [takeBeforeDU_append (d :: g') hdu.2
        (fun x hx => hl x (by rwa [List.getLast?_cons_cons])) s]

theorem hasDU_append_du : ∀ (g s : List Char), hasDU (g ++ '_' :: '_' :: s) = true
  | [], s => by simp [hasDU]
  | [c], s => by simp [hasDU]
  | c :: d :: g', s => by
      simp only [List.cons_append, hasDU, Bool.or_eq_true, List.append_eq]
      right
      rw [show d :: (g' ++ '_' :: '_' :: s) = (d :: g') ++ '_' :: '_' :: s from rfl]
      exact hasDU_append_du (d :: g') s

theorem ne_Time_of_hasDU (s : String) (h : hasDU s.data = true) : s ≠ "Time" := by
  intro heq
  rw [heq] at h
  exact absurd h (by decide)

theorem nonTimeCols_eq_self (l : List String) (h : ∀ c ∈ l, c ≠ "Time") :
    nonTimeCols l = l := by
  induction l with
  | nil => rfl
  | cons c t ih =>
    rw [nonTimeCols, if_neg (h c (List.mem_cons_self c t)),
      ih (fun x hx => h x (List.mem_cons_of_mem c hx))]

theorem forall₂_mem_left {α β : Type} {R : α → β → Prop} :
    ∀ {l₁ : List α} {l₂ : List β}, List.Forall₂ R l₁ l₂ → ∀ a ∈ l₁, ∃ b ∈ l₂, R a b := by
  intro l₁ l₂ h
  induction h with
  | nil => intro a ha; simp at ha
  | cons hab _ ih =>
    intro a ha
    rcases List.mem_cons.mp ha with rfl | ha2
    · exact ⟨_, by simp, hab⟩
    · obtain ⟨b, hb, hr⟩ := ih a ha2
      exact ⟨b, List.mem_cons_of_mem _ hb, hr⟩

theorem dedup_fold_block_mem (bs : List String) (v : String) (acc : List String)
    (hv : ∀ b ∈ bs, firstSegDU b = v) (hmem : v ∈ acc) :
    bs.foldl (fun gs c => if firstSegDU c ∈ gs then gs else gs ++ [firstSegDU c]) acc = acc := by
  induction bs generalizing acc with
  | nil => rfl
  | cons b bs' ih =>
    rw [List.foldl_cons, hv b (List.mem_cons_self b bs'), if_pos hmem]
    exact ih acc (fun x hx => hv x (List.mem_cons_of_mem b hx)) hmem

theorem dedup_fold_block_new (bs : List String) (v : String) (acc : List String)
    (hne : bs ≠ []) (hv : ∀ b ∈ bs, firstSegDU b = v) (hnm : v ∉ acc) :
    bs.foldl (fun gs c => if firstSegDU c ∈ gs then gs else gs ++ [firstSegDU c]) acc
      = acc ++ [v] := by
  cases bs with
  | nil => exact absurd rfl hne
  | cons b bs' =>
    rw [List.foldl_cons, hv b (List.mem_cons_self b bs'), if_neg hnm]
    exact dedup_fold_block_mem bs' v (acc ++ [v])
      (fun x hx => hv x (List.mem_cons_of_mem b hx)) (by simp)

theorem dedup_fold_blocks :
    ∀ (blocks : List (List String)) (vals : List String) (acc : List String),
    List.Forall₂ (fun bs v => bs ≠ [] ∧ ∀ b ∈ bs, firstSegDU b = v) blocks vals →
    vals.Nodup → (∀ v ∈ vals, v ∉ acc) →
    blocks.flatten.foldl (fun gs c => if firstSegDU c ∈ gs then gs else gs ++ [firstSegDU c]) acc
      = acc ++ vals := by
  intro blocks vals acc h
  induction h generalizing acc with
  | nil => intro _ _; simp
  | @cons bs v blocks' vals' hbv hrest ih =>
    intro hnd hacc
    rw [List.flatten_cons, List.foldl_append]
    rw [dedup_fold_block_new bs v acc hbv.1 hbv.2 (hacc v (List.mem_cons_self v vals'))]
    rw [ih (acc ++ [v]) (List.nodup_cons.mp hnd).2 ?hacc2]
    · simp
    case hacc2 =>
      intro w hw
      rw [List.mem_append]
      rintro (hw1 | hw2)
      · exact hacc w (List.mem_cons_of_mem v hw) hw1
      · have hwv : w = v := by simpa using hw2
        exact (List.nodup_cons.mp hnd).1 (hwv ▸ hw)

theorem exceptMapM_ok_forall {α β ε : Type} (f : α → Except ε β) :
    ∀ (l : List α) (r : List β), exceptMapM f l = Except.ok r →
      List.Forall₂ (fun a b => f a = Except.ok b) l r
  | [], r, h => by
      have hr : r = [] := by
        rw [exceptMapM] at h
        cases h
        rfl
      subst hr
      exact List.Forall₂.nil
  | a :: t, r, h => by
      rw [exceptMapM] at h
      cases hfa : f a with
      | error e => rw [hfa] at h; exact absurd h (by simp)
      | ok b =>
        rw [hfa] at h
        cases hrec : exceptMapM f t with
        | error e => rw [hrec] at h; exact absurd h (by simp)
        | ok rs =>
          rw [hrec] at h
          have hr : r = b :: rs := by cases h; rfl
          subst hr
          exact List.Forall₂.cons hfa (exceptMapM_ok_forall f t rs hrec)

theorem summarizeGroup_cols (data : RawData) (gd : GroupDict) (gname : String)
    (hg : dictGet? gd "group" = some (ConfigVal.name gname))
    (gc : List (String × List (Option ℚ))) (h : summarizeGroup data gd = Except.ok gc) :
    gc.map Prod.fst = (realSamples gd).map (fun p => gname ++ "__" ++ p.1) := by
  unfold summarizeGroup at h
  cases hrs : realSamples gd with
  | nil =>
    rw [hrs, hg] at h
    have : gc = [] := by cases h; rfl
    simp [this]
  | cons p ps =>
    rw [hrs, hg] at h
    have : gc = (p :: ps).map (fun p =>
        (pyStrVal (ConfigVal.name gname) ++ "__" ++ p.1,
         subSeries (dfMean (dfFilter data.cols (colNames p.2)) (shape0 data))
           (match dictGet? gd "blank" with
            | some v => dfMean (dfFilter data.cols (colNames v)) (shape0 data)
            | none => (List.range (shape0 data)).map (fun _ => some 0)))) := by
      cases h; rfl
    subst this
    rw [List.map_map]
    rfl

theorem blocks_forall (data : RawData) (config : List GroupDict)
    (gts : List (List (String × List (Option ℚ))))
    (h : List.Forall₂ (fun gd gc => summarizeGroup data gd = Except.ok gc) config gts)
    (hgood : ∀ gd ∈ config, ∃ gname, dictGet? gd "group" = some (ConfigVal.name gname)
        ∧ hasDU gname.data = false ∧ (∀ x, gname.data.getLast? = some x → x ≠ '_')
        ∧ realSamples gd ≠ []) :
    List.Forall₂ (fun bs v => bs ≠ [] ∧ ∀ b ∈ bs, firstSegDU b = v)
      (gts.map (fun gc => gc.map Prod.fst)) (configGroups config)
    ∧ (∀ c ∈ (gts.flatten).map Prod.fst, hasDU c.data = true) := by
  induction h with
  | nil => exact ⟨List.Forall₂.nil, by simp⟩
  | @cons gd gc config2 gts2 hab hrest ih =>
    obtain ⟨gname, hg, hdu, hlast, hne⟩ := hgood gd (List.mem_cons_self gd config2)
    have hcols := summarizeGroup_cols data gd gname hg gc hab
    have hcg : configGroups (gd :: config2) = gname :: configGroups config2 := by
      simp [configGroups, List.filterMap_cons, hg]
    have hdata : ∀ t : String,
        (gname ++ "__" ++ t).data = gname.data ++ '_' :: '_' :: t.data := by
      intro t
      rw [String.data_append, String.data_append, List.append_assoc]
      rfl
    obtain ⟨ihF, ihH⟩ := ih (fun g hgm => hgood g (List.mem_cons_of_mem _ hgm))
    constructor
    · rw [List.map_cons, hcg]
      refine List.Forall₂.cons ⟨?_, ?_⟩ ihF
      · rw [hcols]
        simpa using hne
      · intro b hb
        rw [hcols] at hb
        obtain ⟨p, _, rfl⟩ := List.mem_map.mp hb
        unfold firstSegDU
        rw [hdata p.1, takeBeforeDU_append gname.data hdu hlast]
    · intro c hc
      rw [List.flatten_cons, List.map_append] at hc
      rcases List.mem_append.mp hc with hc1 | hc2
      · rw [hcols] at hc1
        obtain ⟨p, _, rfl⟩ := List.mem_map.mp hc1
        rw [hdata p.1]
        exact hasDU_append_du _ _
      · exact ihH c hc2

/-- C7 amended: the round-trip `Summarize` → `write_summary` →
`load_summary` recovers the configuration's group-name list (in order) and
the written timepoints — provided every group's name contains no `"__"` and
does not end in `'_'`, the group names are pairwise distinct, and every
group declares at least one sample besides the pseudo-keys `group` and
`blank`.  (Without those conditions recovery fails, see the
counterexample.) -/
theorem summary_roundtrip_amended (config : List GroupDict) (data : RawData) (u : String)
    (tbl : SummaryTable) (h : summarize config data (TimepointsArg.str u) = Except.ok tbl)
    (hgood : ∀ gd ∈ config, ∃ gname, dictGet? gd "group" = some (ConfigVal.name gname)
        ∧ hasDU gname.data = false ∧ (∀ x, gname.data.getLast? = some x → x ≠ '_')
        ∧ realSamples gd ≠ [])
    (hnd : (configGroups config).Nodup) :
    (load_summary (write_summary tbl)).1 = configGroups config
    ∧ ∃ tps, convert_timepoints u data.timeCol = Except.ok tps
        ∧ (load_summary (write_summary tbl)).2 = some (tps.map some) := by
  unfold summarize at h
  cases hconv : timepointsResult data (TimepointsArg.str u) with
  | error e => rw [hconv] at h; exact absurd h (by simp)
  | ok tps =>
    rw [hconv] at h
    cases hmapm : exceptMapM (summarizeGroup data) config with
    | error e => rw [hmapm] at h; exact absurd h (by simp)
    | ok gts =>
      rw [hmapm] at h
      have htbl : tbl = ("Time", tps.map some) :: gts.flatten := by cases h; rfl
      subst htbl
      have hfa := exceptMapM_ok_forall (summarizeGroup data) config gts hmapm
      obtain ⟨hblocks, hdus⟩ := blocks_forall data config gts hfa hgood
      constructor
      · simp only [load_summary, write_summary, List.map_cons]
        have hnames : ∀ c ∈ (gts.flatten).map Prod.fst, c ≠ "Time" :=
          fun c hc => ne_Time_of_hasDU c (hdus c hc)
        rw [show nonTimeCols ("Time" :: (gts.flatten).map Prod.fst)
            = nonTimeCols ((gts.flatten).map Prod.fst) from by
          rw [nonTimeCols, if_pos rfl]]
        rw [nonTimeCols_eq_self _ hnames]
        rw [List.map_flatten Prod.fst gts]
        rw [dedup_fold_blocks _ _ [] hblocks hnd (by simp)]
        exact List.nil_append _
      · refine ⟨tps, hconv, ?_⟩
        simp [load_summary, write_summary, assocFind?]

/-- Witness for C7's amended theorem: a one-group, one-sample, one-row run. -/
theorem summary_roundtrip_amended_witness :
    (load_summary (write_summary [("Time", [some 0]), ("A__x", [some (2 : ℚ)])])).1
        = configGroups [[("group", ConfigVal.name "A"), ("x", ConfigVal.wells [1])]]
    ∧ ∃ tps, convert_timepoints "hours" ["00:00:00"] = Except.ok tps
        ∧ (load_summary (write_summary [("Time", [some 0]), ("A__x", [some (2 : ℚ)])])).2
            = some (tps.map some) :=
  summary_roundtrip_amended
    [[("group", ConfigVal.name "A"), ("x", ConfigVal.wells [1])]]
    ⟨["00:00:00"], [("1", [2])]⟩ "hours"
    [("Time", [some 0]), ("A__x", [some 2])]
    (by simp +decide [summarize, timepointsResult, convert_timepoints, pyLower, pySplitCh,
          parseIntList, exceptMapM, pyIntChars?, digitsVal, convert_tm, timepoints_possible,
          timeFormatErrMsg, summarizeGroup, dictGet?, assocFind?, realSamples, dfMean, dfFilter,
          dfLookup, colNames, shape0, rowMean, subSeries, List.range, List.range.loop, pyStrVal,
          Option.isSome])
    (by intro gd hgd
        have hgd2 : gd = [("group", ConfigVal.name "A"), ("x", ConfigVal.wells [1])] := by
          simpa using hgd
        subst hgd2
        exact ⟨"A", by decide, by decide,
          (by intro x hx
              rw [show ("A" : String).data.getLast? = some 'A' from rfl] at hx
              cases hx
              decide),
          by decide⟩)
    (by decide)

/-- C7 counterexample: a group literally named `"a__b"` (legal for
`set_config`, which does not sanitize) produces the summary column
`"a__b__x"`, and `load_summary` recovers the group list `["a"]`, not
`["a__b"]`: the round-trip does not recover the configuration's group list
for every summary table produced by `summarize`. -/
theorem summary_roundtrip_counterexample :
    set_config ["a__b"] (SamplesArg.flat ["x"]) 1 none
      = Except.ok ([[("group", ConfigVal.name "a__b"), ("x", ConfigVal.wells [1])]], ["a__b"])
    ∧ summarize [[("group", ConfigVal.name "a__b"), ("x", ConfigVal.wells [1])]]
        ⟨["00:00:00"], [("1", [2])]⟩ (TimepointsArg.str "hours")
      = Except.ok [("Time", [some 0]), ("a__b__x", [some 2])]
    ∧ configGroups [[("group", ConfigVal.name "a__b"), ("x", ConfigVal.wells [1])]] = ["a__b"]
    ∧ (load_summary (write_summary [("Time", [some 0]), ("a__b__x", [some (2 : ℚ)])])).1 = ["a"]
    ∧ ("a" : String) ≠ "a__b" := by
  refine ⟨by decide, ?_, by decide, by decide, by decide⟩
  simp +decide [summarize, timepointsResult, convert_timepoints, pyLower, pySplitCh,
    parseIntList, exceptMapM, pyIntChars?, digitsVal, convert_tm, timepoints_possible,
    timeFormatErrMsg, summarizeGroup, dictGet?, assocFind?, realSamples, dfMean, dfFilter,
    dfLookup, colNames, shape0, rowMean, subSeries, List.range, List.range.loop, pyStrVal,
    Option.isSome]

end Bioscreen
